import Mathlib

/-!
Shallow embedding of the ClickUp MCP server core (consent-cookie signing,
tree walker, task aggregation, filter compiler) and proofs about the
specified properties.

Conventions of the embedding:
* JavaScript strings are modelled as Lean `String` (lists of Unicode scalar
  values).  Byte strings are `List Nat` with every element `< 256`.
* Functions that can throw in JavaScript return `Except String α`; the
  error payload is the message text (messages are abbreviated where the
  exact text is irrelevant to any property).
* Machine integers are `Int`/`Nat`; 32-bit arithmetic is explicit `% 2^32`.
-/

set_option maxRecDepth 8000

namespace ClickUpMCP

/-! ## Bytes, 32-bit words, UTF-8 -/

/-- Modulus for 32-bit words. -/
def M32 : Nat := 4294967296

/-- Right rotation of a 32-bit word. -/
def rotr (k x : Nat) : Nat := ((x >>> k) ||| (x <<< (32 - k))) % M32

/-- UTF-8 encoding of a single Unicode scalar value (as `TextEncoder` does). -/
def utf8Char (c : Char) : List Nat :=
  let n := c.toNat
  if n < 128 then [n]
  else if n < 2048 then [192 ||| (n >>> 6), 128 ||| (n &&& 63)]
  else if n < 65536 then
    [224 ||| (n >>> 12), 128 ||| ((n >>> 6) &&& 63), 128 ||| (n &&& 63)]
  else
    [240 ||| (n >>> 18), 128 ||| ((n >>> 12) &&& 63),
     128 ||| ((n >>> 6) &&& 63), 128 ||| (n &&& 63)]

/-- UTF-8 encoding of a string, i.e. `new TextEncoder().encode(s)`. -/
def utf8Encode (s : String) : List Nat := List.flatten (s.data.map utf8Char)

/-! ## SHA-256 (FIPS 180-4), over byte lists -/

/-- The 64 SHA-256 round constants. -/
def sha256K : List Nat :=
  [1116352408, 1899447441, 3049323471, 3921009573, 961987163, 1508970993,
   2453635748, 2870763221, 3624381080, 310598401, 607225278, 1426881987,
   1925078388, 2162078206, 2614888103, 3248222580, 3835390401, 4022224774,
   264347078, 604807628, 770255983, 1249150122, 1555081692, 1996064986,
   2554220882, 2821834349, 2952996808, 3210313671, 3336571891, 3584528711,
   113926993, 338241895, 666307205, 773529912, 1294757372, 1396182291,
   1695183700, 1986661051, 2177026350, 2456956037, 2730485921, 2820302411,
   3259730800, 3345764771, 3516065817, 3600352804, 4094571909, 275423344,
   430227734, 506948616, 659060556, 883997877, 958139571, 1322822218,
   1537002063, 1747873779, 1955562222, 2024104815, 2227730452, 2361852424,
   2428436474, 2756734187, 3204031479, 3329325298]

/-- The SHA-256 initial hash value. -/
def sha256H0 : List Nat :=
  [1779033703, 3144134277, 1013904242, 2773480762,
   1359893119, 2600822924, 528734635, 1541459225]

/-- Interpret a byte list as big-endian 32-bit words (groups of 4). -/
def bigEndianWords : List Nat → List Nat
  | b0 :: b1 :: b2 :: b3 :: rest => (((b0 * 256 + b1) * 256 + b2) * 256 + b3) :: bigEndianWords rest
  | _ => []

/-- Big-endian bytes of a 32-bit word. -/
def wordBytes (w : Nat) : List Nat := [(w >>> 24) % 256, (w >>> 16) % 256, (w >>> 8) % 256, w % 256]

/-- SHA-256 message padding: `0x80`, zero bytes to 56 mod 64, 8-byte big-endian bit length. -/
def sha256Pad (msg : List Nat) : List Nat :=
  let k := (56 + 64 - (msg.length + 1) % 64) % 64
  let bitLen := msg.length * 8
  msg ++ 128 :: List.replicate k 0 ++
    [(bitLen >>> 56) % 256, (bitLen >>> 48) % 256, (bitLen >>> 40) % 256, (bitLen >>> 32) % 256,
     (bitLen >>> 24) % 256, (bitLen >>> 16) % 256, (bitLen >>> 8) % 256, bitLen % 256]

/-- Next message-schedule word from a sliding window of the previous 16. -/
def schedNext : List Nat → Nat
  | w0 :: w1 :: _ :: _ :: _ :: _ :: _ :: _ :: _ :: w9 :: _ :: _ :: _ :: _ :: w14 :: _ =>
      ((rotr 17 w14 ^^^ rotr 19 w14 ^^^ (w14 >>> 10)) + w9 +
       (rotr 7 w1 ^^^ rotr 18 w1 ^^^ (w1 >>> 3)) + w0) % M32
  | _ => 0

/-- Produce `n` further schedule words from a 16-word window. -/
def schedRun : Nat → List Nat → List Nat
  | 0, _ => []
  | n + 1, win =>
      let t := schedNext win
      t :: schedRun n (win.drop 1 ++ [t])

/-- The 64 rounds of the compression function, driven by zipped
round-constant/schedule pairs. -/
def sha256Rounds : List (Nat × Nat) → List Nat → List Nat
  | [], st => st
  | (k, wi) :: rest, [a, b, c, d, e, f, g, h] =>
      let s1 := rotr 6 e ^^^ rotr 11 e ^^^ rotr 25 e
      let ch := (e &&& f) ^^^ ((4294967295 ^^^ e) &&& g)
      let t1 := (h + s1 + ch + k + wi) % M32
      let s0 := rotr 2 a ^^^ rotr 13 a ^^^ rotr 22 a
      let mj := (a &&& b) ^^^ (a &&& c) ^^^ (b &&& c)
      let t2 := (s0 + mj) % M32
      sha256Rounds rest [(t1 + t2) % M32, a, b, c, (d + t1) % M32, e, f, g]
  | _, st => st

/-- One SHA-256 compression of a 64-byte block (given as 16 words) into the state. -/
def sha256Comp (h0 block : List Nat) : List Nat :=
  let w := block ++ schedRun 48 block
  let st := sha256Rounds (sha256K.zip w) h0
  (h0.zip st).map (fun p => (p.1 + p.2) % M32)

/-- Split a word list into chunks of 16 (one SHA-256 block each). -/
def chunks16 : List Nat → List (List Nat)
  | a0 :: a1 :: a2 :: a3 :: a4 :: a5 :: a6 :: a7 ::
    a8 :: a9 :: a10 :: a11 :: a12 :: a13 :: a14 :: a15 :: rest =>
      [a0, a1, a2, a3, a4, a5, a6, a7, a8, a9, a10, a11, a12, a13, a14, a15] :: chunks16 rest
  | _ => []

/-- The SHA-256 digest (32 bytes) of a byte list. -/
def sha256 (msg : List Nat) : List Nat :=
  let final := (chunks16 (bigEndianWords (sha256Pad msg))).foldl sha256Comp sha256H0
  List.flatten (final.map wordBytes)

/-! ## HMAC-SHA256 (RFC 2104) -/

/-- HMAC-SHA256 of a message under a raw key, both byte lists.  Keys longer
than the 64-byte block are first hashed; shorter keys are zero-padded. -/
def hmacSha256 (key msg : List Nat) : List Nat :=
  let k0 := if key.length > 64 then sha256 key else key
  let kp := k0 ++ List.replicate (64 - k0.length) 0
  let ipad := kp.map (fun b => b ^^^ 0x36)
  let opad := kp.map (fun b => b ^^^ 0x5c)
  sha256 (opad ++ sha256 (ipad ++ msg))

/-! ## Hexadecimal encoding and the JavaScript-style decode used by
`verifySignature` -/

/-- Lowercase hexadecimal digit, as produced by `Number.prototype.toString(16)`. -/
def hexDigitChar (n : Nat) : Char :=
  if n < 10 then Char.ofNat (48 + n) else Char.ofNat (87 + n)

/-- Two lowercase hex digits of a byte, i.e. `b.toString(16).padStart(2, "0")`. -/
def byteHex (b : Nat) : List Char := [hexDigitChar (b / 16), hexDigitChar (b % 16)]

/-- Hex string of a byte list (the signature format emitted by `signData`). -/
def hexOfBytes (bs : List Nat) : List Char := List.flatten (bs.map byteHex)

/-- Value of one hexadecimal digit character (either case), if any. -/
def hexVal (c : Char) : Option Nat :=
  if 48 ≤ c.toNat ∧ c.toNat ≤ 57 then some (c.toNat - 48)
  else if 97 ≤ c.toNat ∧ c.toNat ≤ 102 then some (c.toNat - 87)
  else if 65 ≤ c.toNat ∧ c.toNat ≤ 70 then some (c.toNat - 55)
  else none

/-- The chunking performed by `signatureHex.match(/.{1,2}/g)`. -/
def chunk2 : List Char → List (List Char)
  | a :: b :: rest => [a, b] :: chunk2 rest
  | [a] => [[a]]
  | [] => []

/-- JavaScript whitespace characters recognised by `parseInt`/`trim`. -/
def jsWs (c : Char) : Bool :=
  c = ' ' || c = '\t' || c = '\n' || c = '\r' || c = '\x0b' || c = '\x0c'

/-- Value of a maximal hexadecimal-digit prefix, `none` when it is empty. -/
def hexPrefixVal (cs : List Char) : Option Nat :=
  let ds := cs.takeWhile (fun c => (hexVal c).isSome)
  if ds.isEmpty then none
  else some (ds.foldl (fun a c => a * 16 + (hexVal c).getD 0) 0)

/-- One chunk through `Number.parseInt(chunk, 16)` followed by the `Uint8Array`
element coercion (`NaN` becomes `0`, negatives wrap modulo 256). -/
def parseHexChunkJS (cs : List Char) : Nat :=
  let cs := cs.dropWhile jsWs
  match cs with
  | '-' :: rest =>
      (match hexPrefixVal rest with
       | some v => (256 - v % 256) % 256
       | none => 0)
  | '+' :: rest => (hexPrefixVal rest).getD 0 % 256
  | _ => (hexPrefixVal cs).getD 0 % 256

/-! ## Base64: `btoa` / `atob` (WHATWG forgiving decode) -/

/-- Character of one base64 sextet. -/
def b64Char (n : Nat) : Char :=
  if n < 26 then Char.ofNat (65 + n)
  else if n < 52 then Char.ofNat (97 + (n - 26))
  else if n < 62 then Char.ofNat (48 + (n - 52))
  else if n = 62 then '+' else '/'

/-- Base64 encoding of a byte list, with `=` padding. -/
def btoaGroups : List Nat → List Char
  | b0 :: b1 :: b2 :: rest =>
      b64Char (b0 / 4) :: b64Char (b0 % 4 * 16 + b1 / 16) ::
      b64Char (b1 % 16 * 4 + b2 / 64) :: b64Char (b2 % 64) :: btoaGroups rest
  | [b0, b1] => [b64Char (b0 / 4), b64Char (b0 % 4 * 16 + b1 / 16), b64Char (b1 % 16 * 4), '=']
  | [b0] => [b64Char (b0 / 4), b64Char (b0 % 4 * 16), '=', '=']
  | [] => []

/-- The `btoa` function: base64 of the code points of a latin1 string; throws
`InvalidCharacterError` on any code point above 255. -/
def btoa (s : String) : Except String String :=
  if s.data.all (fun c => c.toNat < 256) then
    .ok (String.mk (btoaGroups (s.data.map Char.toNat)))
  else .error "InvalidCharacterError"

/-- Inverse base64 alphabet. -/
def b64Val (c : Char) : Option Nat :=
  if 65 ≤ c.toNat ∧ c.toNat ≤ 90 then some (c.toNat - 65)
  else if 97 ≤ c.toNat ∧ c.toNat ≤ 122 then some (c.toNat - 71)
  else if 48 ≤ c.toNat ∧ c.toNat ≤ 57 then some (c.toNat + 4)
  else if c = '+' then some 62
  else if c = '/' then some 63
  else none

/-- Reassemble bytes from sextets (with the 2- and 3-sextet tails of the
forgiving-base64 algorithm). -/
def atobCore : List Nat → Option (List Nat)
  | s0 :: s1 :: s2 :: s3 :: rest =>
      (atobCore rest).map (fun bs =>
        (s0 * 4 + s1 / 16) :: (s1 % 16 * 16 + s2 / 4) :: (s2 % 4 * 64 + s3) :: bs)
  | [s0, s1, s2] => some [s0 * 4 + s1 / 16, s1 % 16 * 16 + s2 / 4]
  | [s0, s1] => some [s0 * 4 + s1 / 16]
  | [_] => none
  | [] => some []

/-- ASCII whitespace removed by forgiving base64. -/
def b64Ws (c : Char) : Bool :=
  c = ' ' || c = '\t' || c = '\n' || c = '\x0c' || c = '\r'

/-- The padding-stripping step of forgiving base64: up to two trailing `=`
characters are removed. -/
def stripTrailingEq (cs : List Char) : List Char :=
  match cs.reverse with
  | [] => cs
  | c1 :: r =>
      if c1 = '=' then
        match r with
        | c2 :: r2 => if c2 = '=' then r2.reverse else r.reverse
        | [] => r.reverse
      else cs

/-- Map the base64 alphabet over a character list, failing on any
non-alphabet character. -/
def mapB64 : List Char → Option (List Nat)
  | [] => some []
  | c :: rest =>
      match b64Val c with
      | none => none
      | some v => (mapB64 rest).map (v :: ·)

/-- The decode tail shared by both padding branches of `atob`. -/
def atobTail (cs2 : List Char) : Except String String :=
  if cs2.length % 4 = 1 then .error "InvalidCharacterError"
  else
    match (mapB64 cs2).bind atobCore with
    | some bytes => .ok (String.mk (bytes.map Char.ofNat))
    | none => .error "InvalidCharacterError"

/-- The `atob` function (WHATWG forgiving base64 decode): remove ASCII
whitespace, strip `=` padding when the length is a multiple of four, then
decode; errors mirror the thrown `InvalidCharacterError`. -/
def atob (s : String) : Except String String :=
  if (s.data.filter (fun c => !b64Ws c)).length % 4 = 0 then
    atobTail (stripTrailingEq (s.data.filter (fun c => !b64Ws c)))
  else atobTail (s.data.filter (fun c => !b64Ws c))

/-! ## A model of JSON values (`JSON.parse` / `JSON.stringify`)

Numbers are modelled as exact rationals rather than IEEE doubles: every
numeric literal that occurs in the verified flows is a small integer, for
which the two agree.  `undef` stands for the JavaScript `undefined`, which
is never produced by the parser but arises from property access. -/

inductive J where
  | null
  | undef
  | bool (b : Bool)
  | num (q : Rat)
  | str (s : String)
  | arr (xs : List J)
  | obj (kvs : List (String × J))

/-- Decimal representation of the (integral) numbers that reach
`JSON.stringify` in the modelled flows. -/
def ratDecimalRepr (q : Rat) : List Char :=
  if q.den = 1 then (toString q.num).data else (toString q).data

/-- Escape of one character inside a JSON string literal, as performed by
`JSON.stringify`. -/
def escChar (c : Char) : List Char :=
  if c = '"' then ['\\', '"']
  else if c = '\\' then ['\\', '\\']
  else if c = '\x08' then ['\\', 'b']
  else if c = '\x09' then ['\\', 't']
  else if c = '\x0a' then ['\\', 'n']
  else if c = '\x0c' then ['\\', 'f']
  else if c = '\x0d' then ['\\', 'r']
  else if c.toNat < 32 then
    ['\\', 'u', '0', '0', hexDigitChar (c.toNat / 16), hexDigitChar (c.toNat % 16)]
  else [c]

/-- A JSON string literal for `s`, quotes included. -/
def escString (s : String) : List Char :=
  '"' :: List.flatten (s.data.map escChar) ++ ['"']

mutual

/-- Serialization of a JSON value (`JSON.stringify`).  An `undef` can occur
only as an array element in the modelled flows, where `JSON.stringify`
emits `null`. -/
def stringifyJ : J → List Char
  | .null => "null".data
  | .undef => "null".data
  | .bool true => "true".data
  | .bool false => "false".data
  | .num q => ratDecimalRepr q
  | .str s => escString s
  | .arr xs => '[' :: stringifyItems xs ++ [']']
  | .obj kvs => '\x7b' :: stringifyFields kvs ++ ['\x7d']

/-- Comma-separated serialization of array elements. -/
def stringifyItems : List J → List Char
  | [] => []
  | [x] => stringifyJ x
  | x :: y :: rest => stringifyJ x ++ ',' :: stringifyItems (y :: rest)

/-- Comma-separated serialization of object members. -/
def stringifyFields : List (String × J) → List Char
  | [] => []
  | [(k, v)] => escString k ++ ':' :: stringifyJ v
  | (k, v) :: m :: rest => escString k ++ ':' :: stringifyJ v ++ ',' :: stringifyFields (m :: rest)

end

/-- JSON whitespace. -/
def jsonWs (c : Char) : Bool := c = ' ' || c = '\t' || c = '\n' || c = '\r'

/-- Drop leading JSON whitespace. -/
def skipWs (cs : List Char) : List Char := cs.dropWhile jsonWs

/-- One unescaped character for a two-character escape, if the escape is a
simple one. -/
def simpleEscape (e : Char) : Option Char :=
  if e = '"' then some '"'
  else if e = '\\' then some '\\'
  else if e = '/' then some '/'
  else if e = 'b' then some '\x08'
  else if e = 'f' then some '\x0c'
  else if e = 'n' then some '\x0a'
  else if e = 'r' then some '\x0d'
  else if e = 't' then some '\x09'
  else none

/-- Parser state for a JSON string literal body: normal content, after a
backslash, inside a `\uXXXX` escape (digit count and accumulator), or the
three stages of the low half of a surrogate pair. -/
inductive PSState where
  | normal
  | esc
  | uni (k : Nat) (acc : Nat)
  | lowPending (hi : Nat)
  | lowEsc (hi : Nat)
  | lowUni (hi : Nat) (k : Nat) (acc : Nat)

/-- Body of a JSON string literal after the opening quote, as a
character-at-a-time machine: returns the content and the rest after the
closing quote.  JSON strings may not contain raw control characters.  A
surrogate-pair escape is combined into one scalar; a lone surrogate
escape, which a Lean `Char` cannot carry, is rejected (no such payload
occurs in any claim). -/
def pStrRun : PSState → List Char → Option (List Char × List Char)
  | .normal, c :: rest =>
      if c = '"' then some ([], rest)
      else if c = '\\' then pStrRun .esc rest
      else if c.toNat < 32 then none
      else (pStrRun .normal rest).map (fun p => (c :: p.1, p.2))
  | .esc, e :: rest =>
      (match simpleEscape e with
       | some u => (pStrRun .normal rest).map (fun p => (u :: p.1, p.2))
       | none => if e = 'u' then pStrRun (.uni 0 0) rest else none)
  | .uni k acc, c :: rest =>
      (match hexVal c with
       | none => none
       | some v =>
           if k = 3 then
             if 55296 ≤ acc * 16 + v ∧ acc * 16 + v < 56320 then
               pStrRun (.lowPending (acc * 16 + v)) rest
             else if 56320 ≤ acc * 16 + v ∧ acc * 16 + v < 57344 then none
             else (pStrRun .normal rest).map (fun p => (Char.ofNat (acc * 16 + v) :: p.1, p.2))
           else pStrRun (.uni (k + 1) (acc * 16 + v)) rest)
  | .lowPending hi, c :: rest => if c = '\\' then pStrRun (.lowEsc hi) rest else none
  | .lowEsc hi, c :: rest => if c = 'u' then pStrRun (.lowUni hi 0 0) rest else none
  | .lowUni hi k acc, c :: rest =>
      (match hexVal c with
       | none => none
       | some v =>
           if k = 3 then
             if 56320 ≤ acc * 16 + v ∧ acc * 16 + v < 57344 then
               (pStrRun .normal rest).map (fun p =>
                 (Char.ofNat (65536 + (hi - 55296) * 1024 + (acc * 16 + v - 56320)) :: p.1, p.2))
             else none
           else pStrRun (.lowUni hi (k + 1) (acc * 16 + v)) rest)
  | _, [] => none

/-- Body of a JSON string literal after the opening quote. -/
def pStringBody (cs : List Char) : Option (List Char × List Char) := pStrRun .normal cs

/-- Decimal digit test. -/
def isDigitC (c : Char) : Bool := 48 ≤ c.toNat && c.toNat ≤ 57

/-- Value of a decimal digit list. -/
def digitsVal (ds : List Char) : Nat := ds.foldl (fun a c => a * 10 + (c.toNat - 48)) 0

/-- A JSON number literal: `-? int frac? exp?`, as an exact rational. -/
def pNumber (cs : List Char) : Option (Rat × List Char) :=
  let signed : Bool × List Char := match cs with | '-' :: r => (true, r) | _ => (false, cs)
  let neg := signed.1
  let cs1 := signed.2
  match cs1 with
  | c :: _ =>
    if ¬ isDigitC c then none
    else
      let intPart : List Char × List Char :=
        if c = '0' then (['0'], cs1.drop 1)
        else (cs1.takeWhile isDigitC, cs1.dropWhile isDigitC)
      let iv : Rat := (digitsVal intPart.1 : Nat)
      let fracStep : Option (Rat × List Char) :=
        match intPart.2 with
        | '.' :: fr =>
            let fds := fr.takeWhile isDigitC
            if fds.isEmpty then none
            else some (iv + (digitsVal fds : Rat) / ((10 : Rat) ^ fds.length), fr.dropWhile isDigitC)
        | r => some (iv, r)
      match fracStep with
      | none => none
      | some (v, r2) =>
          let expStep : Option (Rat × List Char) :=
            match r2 with
            | 'e' :: er => pExp v er
            | 'E' :: er => pExp v er
            | r3 => some (v, r3)
          match expStep with
          | none => none
          | some (v2, r4) => some (if neg then -v2 else v2, r4)
  | [] => none
where
  pExp (v : Rat) (er : List Char) : Option (Rat × List Char) :=
    let signedE : Bool × List Char :=
      match er with
      | '-' :: r => (true, r)
      | '+' :: r => (false, r)
      | _ => (false, er)
    let eds := signedE.2.takeWhile isDigitC
    if eds.isEmpty then none
    else
      let e := digitsVal eds
      let scaled := if signedE.1 then v / ((10 : Rat) ^ e) else v * ((10 : Rat) ^ e)
      some (scaled, signedE.2.dropWhile isDigitC)

mutual

/-- Parse one JSON value.  The `Nat` argument is recursion fuel; the top
level supplies more fuel than any input can consume, so the fuel never
changes the accepted language. -/
def pValue : Nat → List Char → Option (J × List Char)
  | 0, _ => none
  | d + 1, cs =>
    match skipWs cs with
    | 'n' :: 'u' :: 'l' :: 'l' :: rest => some (J.null, rest)
    | 't' :: 'r' :: 'u' :: 'e' :: rest => some (J.bool true, rest)
    | 'f' :: 'a' :: 'l' :: 's' :: 'e' :: rest => some (J.bool false, rest)
    | '"' :: rest => (pStringBody rest).map (fun p => (J.str (String.mk p.1), p.2))
    | '[' :: rest =>
        (match skipWs rest with
         | ']' :: rest2 => some (J.arr [], rest2)
         | cs2 => (pItems d cs2).map (fun p => (J.arr p.1, p.2)))
    | '\x7b' :: rest =>
        (match skipWs rest with
         | '\x7d' :: rest2 => some (J.obj [], rest2)
         | cs2 => (pFields d cs2).map (fun p => (J.obj p.1, p.2)))
    | cs2 => (pNumber cs2).map (fun p => (J.num p.1, p.2))

/-- Parse the elements of a nonempty JSON array, up to and including `]`. -/
def pItems : Nat → List Char → Option (List J × List Char)
  | 0, _ => none
  | d + 1, cs => do
      let (v, cs1) ← pValue d cs
      match skipWs cs1 with
      | ',' :: cs2 => (pItems d cs2).map (fun p => (v :: p.1, p.2))
      | ']' :: cs2 => some ([v], cs2)
      | _ => none

/-- Parse the members of a nonempty JSON object, up to and including the
closing brace. -/
def pFields : Nat → List Char → Option (List (String × J) × List Char)
  | 0, _ => none
  | d + 1, cs =>
      match skipWs cs with
      | '"' :: rest => do
          let (kcs, cs1) ← pStringBody rest
          match skipWs cs1 with
          | ':' :: cs2 => do
              let (v, cs3) ← pValue d cs2
              (match skipWs cs3 with
               | ',' :: cs4 => (pFields d cs4).map (fun p => ((String.mk kcs, v) :: p.1, p.2))
               | '\x7d' :: cs4 => some ([(String.mk kcs, v)], cs4)
               | _ => none)
          | _ => none
      | _ => none

end

/-- The `JSON.parse` model: a whole-input parse, `none` on any syntax error. -/
def jsonParse (s : String) : Option J :=
  match pValue (2 * s.data.length + 2) s.data with
  | some (v, rest) => if skipWs rest = [] then some v else none
  | none => none

/-! ## JavaScript value helpers -/

/-- Truthiness of a JSON-modelled value. -/
def jTruthy : J → Bool
  | .null => false
  | .undef => false
  | .bool b => b
  | .num q => q != 0
  | .str s => s != ""
  | .arr _ => true
  | .obj _ => true

/-- Property lookup on parsed JSON objects.  `JSON.parse` keeps the last of
duplicate keys, so the last binding wins. -/
def jLookup (kvs : List (String × J)) (k : String) : Option J :=
  ((kvs.reverse).find? (fun p => p.1 = k)).map Prod.snd

/-- Optional-chained property access `v?.k`: `undefined` when `v` is not an
object or lacks the property. -/
def jGet (v : J) (k : String) : J :=
  match v with
  | .obj kvs => (jLookup kvs k).getD J.undef
  | _ => J.undef

/-- Does this value have JavaScript type `string`? -/
def isJStr : J → Bool
  | .str _ => true
  | _ => false

/-- The carried string of a string value. -/
def jStrVal : J → String
  | .str s => s
  | _ => ""

/-- SameValueZero, as used by `Set` and `Array.prototype.includes`.
Primitives compare by value.  Objects and arrays compare by reference; in
every modelled flow the two operands of such a comparison originate from
distinct allocations, so it is `false` there. -/
def sameValueZeroJ : J → J → Bool
  | .str a, .str b => a == b
  | .num a, .num b => a == b
  | .bool a, .bool b => a == b
  | .null, .null => true
  | .undef, .undef => true
  | _, _ => false

/-- Strict equality `===` between the values reaching the custom-field
filter; identical to SameValueZero here (no `NaN`/`-0` in the model). -/
def jsStrictEq (a b : J) : Bool := sameValueZeroJ a b

/-- The deduplication `Array.from(new Set(xs))`: first occurrences, in
insertion order. -/
def jsSetDedup (xs : List J) : List J :=
  xs.foldl (fun acc x => if acc.any (fun y => sameValueZeroJ y x) then acc else acc ++ [x]) []

/-- The `||` default for an optional string (empty string is falsy). -/
def jsOrStr (o : Option String) (d : String) : String :=
  match o with
  | some s => if s = "" then d else s
  | none => d

/-- The `||` default for an optional number (zero is falsy). -/
def jsOrInt (o : Option Int) (d : Int) : Int :=
  match o with
  | some v => if v = 0 then d else v
  | none => d

/-- The `x || null` idiom on an optional string field. -/
def jsOrNullStr (o : Option String) : Option String :=
  match o with
  | some s => if s = "" then none else some s
  | none => none

/-- The `x || null` idiom on an optional numeric field. -/
def jsOrNullInt (o : Option Int) : Option Int :=
  match o with
  | some v => if v = 0 then none else some v
  | none => none

/-! ## JavaScript string helpers used by the cookie codec -/

/-- The `String.prototype.split` with a one-character separator. -/
def splitOnChar (sep : Char) : List Char → List (List Char)
  | [] => [[]]
  | c :: rest =>
      if c = sep then [] :: splitOnChar sep rest
      else
        match splitOnChar sep rest with
        | g :: gs => (c :: g) :: gs
        | [] => [[c]]

/-- The `String.prototype.trim` (ASCII whitespace suffices for the modelled
cookie headers). -/
def trimChars (cs : List Char) : List Char :=
  ((cs.dropWhile jsWs).reverse.dropWhile jsWs).reverse

/-- The `String.prototype.startsWith` test (first argument the string,
second the candidate head). -/
def startsWithL (s p : List Char) : Bool :=
  match p with
  | [] => true
  | p0 :: ps =>
      match s with
      | [] => false
      | c :: cs => c = p0 && startsWithL cs ps

/-! ## Consent-cookie codec (`workers-oauth-utils.ts`) -/

/-- Name of the approval cookie. -/
def COOKIE_NAME : String := "mcp-approved-clients"

/-- Cookie lifetime in seconds. -/
def ONE_YEAR_IN_SECONDS : Nat := 31536000

/-- The `importKey` helper: UTF-8 bytes of the secret as the raw HMAC key;
throws when the secret is empty (falsy). -/
def importKey (secret : String) : Except String (List Nat) :=
  if secret = "" then
    .error "COOKIE_SECRET is not defined. A secret key is required for signing cookies."
  else .ok (utf8Encode secret)

/-- The `signData` helper: lowercase-hex HMAC-SHA256 signature of the UTF-8
bytes of `data`. -/
def signData (key : List Nat) (data : String) : String :=
  String.mk (hexOfBytes (hmacSha256 key (utf8Encode data)))

/-- The `verifySignature` helper: hex-decode the signature the way
`match(/.{1,2}/g)` + `parseInt(-, 16)` + `Uint8Array` do, then compare with
the recomputed HMAC of the UTF-8 bytes of `data`.  All JavaScript failure
modes of the decoding are absorbed into `false` by the surrounding
`try/catch`. -/
def verifySignature (key : List Nat) (signatureHex : String) (data : String) : Bool :=
  ((chunk2 signatureHex.data).map parseHexChunkJS) == hmacSha256 key (utf8Encode data)

/-- The incoming `Request`, restricted to what the modelled handlers read:
its method, its `Cookie` header and the `state` form field. -/
structure JsRequest where
  method : String
  cookieHeader : Option String
  formState : Option String

/-- The `getApprovedClientsFromCookie` helper.  `Except.error` marks the
paths on which the JavaScript original throws (notably `atob` on an
invalid base64 payload, and `importKey` on an empty secret). -/
def getApprovedClientsFromCookie (cookieHeader : Option String) (secret : String) :
    Except String (Option (List String)) := do
  match cookieHeader with
  | none => pure none
  | some h =>
    if h = "" then pure none
    else
      let cookies := (splitOnChar ';' h.data).map trimChars
      match cookies.find? (fun c => startsWithL c (COOKIE_NAME.data ++ ['='])) with
      | none => pure none
      | some targetCookie =>
        let cookieValue := targetCookie.drop (COOKIE_NAME.data.length + 1)
        match splitOnChar '.' cookieValue with
        | [signatureHex, base64Payload] => do
            let payload ← atob (String.mk base64Payload)
            let key ← importKey secret
            if ¬ verifySignature key (String.mk signatureHex) payload then pure none
            else
              match jsonParse payload with
              | none => pure none
              | some v =>
                  match v with
                  | J.arr xs =>
                      if xs.all isJStr then pure (some (xs.map jStrVal)) else pure none
                  | _ => pure none
        | _ => pure none

/-- The exported `clientIdAlreadyApproved`. -/
def clientIdAlreadyApproved (request : JsRequest) (clientId : String) (cookieSecret : String) :
    Except String Bool := do
  if clientId = "" then pure false
  else do
    let approvedClients ← getApprovedClientsFromCookie request.cookieHeader cookieSecret
    pure (match approvedClients with
          | some l => l.contains clientId
          | none => false)

/-- The `(await getApprovedClientsFromCookie(...)) || []` step of
`parseRedirectApproval`. -/
def existingApprovedClients (cookieHeader : Option String) (secret : String) :
    Except String (List String) := do
  let r ← getApprovedClientsFromCookie cookieHeader secret
  pure (r.getD [])

/-- The deduplicated union `Array.from(new Set([...existing, clientId]))`
computed by `parseRedirectApproval`.  The approved client extracted from the
state is an arbitrary truthy value, hence a `J`. -/
def updatedApprovedClients (cookieHeader : Option String) (clientId : J) (secret : String) :
    Except String (List J) := do
  let ex ← existingApprovedClients cookieHeader secret
  pure (jsSetDedup (ex.map J.str ++ [clientId]))

/-- The headers blob built by `parseRedirectApproval`: the raw cookie value
and the full `Set-Cookie` header. -/
structure ApprovalHeaders where
  newCookieValue : String
  setCookie : String

/-- The cookie-building tail of `parseRedirectApproval`: union, serialize,
sign, base64-encode and assemble the `Set-Cookie` header. -/
def recordApproval (cookieHeader : Option String) (clientId : J) (secret : String) :
    Except String ApprovalHeaders := do
  let upd ← updatedApprovedClients cookieHeader clientId secret
  let payload := String.mk (stringifyJ (J.arr upd))
  let key ← importKey secret
  let signature := signData key payload
  let b64 ← btoa payload
  let newCookieValue := signature ++ "." ++ b64
  pure { newCookieValue := newCookieValue,
         setCookie := COOKIE_NAME ++ "=" ++ newCookieValue ++
           "; HttpOnly; Secure; Path=/; SameSite=Lax; Max-Age=" ++ toString ONE_YEAR_IN_SECONDS }

/-- The `decodeState` helper: `JSON.parse(atob(encoded))`, with failures
rethrown as decode errors. -/
def decodeState (encoded : String) : Except String J :=
  match atob encoded with
  | .error _ => .error "Could not decode state"
  | .ok jsonString =>
      match jsonParse jsonString with
      | none => .error "Could not decode state"
      | some v => .ok v

/-- The result of `parseRedirectApproval`: the decoded state and the
headers. -/
structure ParsedApprovalResult where
  state : J
  headers : ApprovalHeaders

/-- The exported `parseRedirectApproval`: method check, state extraction
(failures are hard errors), then cookie update via `recordApproval`. -/
def parseRedirectApproval (request : JsRequest) (cookieSecret : String) :
    Except String ParsedApprovalResult := do
  if request.method ≠ "POST" then .error "Invalid request method. Expected POST."
  else do
    let parsed ←
      (match request.formState with
       | none => .error "Failed to parse approval form: missing state"
       | some encodedState =>
         if encodedState = "" then .error "Failed to parse approval form: missing state"
         else
           match decodeState encodedState with
           | .error e => .error ("Failed to parse approval form: " ++ e)
           | .ok state =>
               let clientId := jGet (jGet state "oauthReqInfo") "clientId"
               if ¬ jTruthy clientId then
                 .error "Failed to parse approval form: Could not extract clientId from state object."
               else .ok (state, clientId) : Except String (J × J))
    let headers ← recordApproval request.cookieHeader parsed.2 cookieSecret
    pure { state := parsed.1, headers := headers }

/-! ## Upstream entities and the tree walker (`clickup-service.ts`) -/

/-- A workspace ("team"); its name may be absent in the upstream response. -/
structure Team where
  id : String
  name : Option String
deriving DecidableEq

/-- A space. -/
structure CUSpace where
  id : String
  name : String
deriving DecidableEq

/-- A folder. -/
structure Folder where
  id : String
  name : String
deriving DecidableEq

/-- A list (the leaf container of tasks). -/
structure CUList where
  id : String
  name : String
deriving DecidableEq

/-- Where a list was found. -/
inductive ListLocation where
  | space
  | folder
deriving DecidableEq

/-- A list decorated with its location tag (`location: 'space' | 'folder'`,
plus folder id/name when it came from a folder). -/
structure ListWithLocation where
  list : CUList
  location : ListLocation
  folderId : Option String
  folderName : Option String
deriving DecidableEq

/-- One per-space group of the `getAllLists` result. -/
structure SpaceWithLists where
  teamId : String
  teamName : String
  spaceId : String
  spaceName : String
  lists : List ListWithLocation
deriving DecidableEq

/-- The `getAllLists` response. -/
structure AllListsResponse where
  success : Bool
  data : List SpaceWithLists
  totalLists : Nat
deriving DecidableEq

/-- The upstream fetches consumed by the tree walker, as oracles: each is
either a parsed response or a thrown error (a non-ok status or a network
failure).  The `Option Bool` argument is the `archived` pass-through. -/
structure TreeEnv where
  getWorkspaces : Except String (List Team)
  getSpaces : String → Option Bool → Except String (List CUSpace)
  getListsInSpace : String → Option Bool → Except String (List CUList)
  getFolders : String → Option Bool → Except String (List Folder)
  getListsInFolder : String → Option Bool → Except String (List CUList)

/-- Workspace-set resolution shared by `getAllLists`, `getMyTasks`,
`searchTasks` and `searchTasksAdvanced`: a named team is looked up in the
visible workspaces and synthesized with a placeholder name when absent;
otherwise all visible workspaces are used. -/
def resolveTeams (ws : Except String (List Team)) (teamId : Option String) :
    Except String (List Team) := do
  let teams ← ws
  match teamId with
  | some tid =>
      match teams.find? (fun t => t.id = tid) with
      | some t => pure [t]
      | none => pure [{ id := tid, name := some ("Team " ++ tid) }]
  | none => pure teams

/-- The per-space body of `getAllLists`.  The space-level `try` wraps the
incremental pushes, so a failure of the folder enumeration keeps the
already-pushed space-level lists, and a failure of one folder's list fetch
keeps everything accumulated so far. -/
def spaceListsStep (env : TreeEnv) (archived : Option Bool) (space : CUSpace) :
    List ListWithLocation :=
  match env.getListsInSpace space.id archived with
  | .error _ => []
  | .ok spaceLists =>
      let acc := spaceLists.map (fun l =>
        { list := l, location := .space, folderId := none, folderName := none : ListWithLocation })
      match env.getFolders space.id archived with
      | .error _ => acc
      | .ok folders =>
          folders.foldl (fun acc2 folder =>
            match env.getListsInFolder folder.id archived with
            | .error _ => acc2
            | .ok folderLists =>
                acc2 ++ folderLists.map (fun l =>
                  { list := l, location := .folder,
                    folderId := some folder.id, folderName := some folder.name })) acc

/-- The per-team body of `getAllLists`: a failing space enumeration makes
the team contribute nothing; otherwise every space is pushed (with whatever
lists its own step preserved). -/
def teamSpaces (env : TreeEnv) (archived : Option Bool) (team : Team) : List SpaceWithLists :=
  match env.getSpaces team.id archived with
  | .error _ => []
  | .ok spaces =>
      spaces.map (fun space =>
        { teamId := team.id, teamName := jsOrStr team.name "Unknown Team",
          spaceId := space.id, spaceName := space.name,
          lists := spaceListsStep env archived space })

/-- The `getAllLists` tree walker.  Only the workspace enumeration can
reach the outer `catch`, which rethrows it as a fatal error. -/
def getAllLists (env : TreeEnv) (teamId : Option String) (archived : Option Bool) :
    Except String AllListsResponse :=
  match resolveTeams env.getWorkspaces teamId with
  | .error e => .error ("全リスト情報の取得に失敗しました: " ++ e)
  | .ok teams =>
      let allLists := teams.foldl (fun acc team => acc ++ teamSpaces env archived team) []
      .ok { success := true, data := allLists,
            totalLists := allLists.foldl (fun total s => total + s.lists.length) 0 }

/-! ## Timestamp formatting (`utils/formatters.ts`) -/

/-- A raw timestamp value as it arrives from the upstream API: absent,
`null`, `NaN`, a number, or a string. -/
inductive TsVal where
  | null
  | undef
  | nan
  | num (n : Int)
  | str (s : String)
deriving DecidableEq

/-- JavaScript falsiness of a raw timestamp value. -/
def jsFalsyTs : TsVal → Bool
  | .null => true
  | .undef => true
  | .nan => true
  | .num n => n == 0
  | .str s => s == ""

/-- Value of a maximal decimal-digit prefix, `none` when it is empty. -/
def decPrefixVal (cs : List Char) : Option Nat :=
  let ds := cs.takeWhile isDigitC
  if ds.isEmpty then none else some (digitsVal ds)

/-- The `parseInt(s)` model (default radix): skip whitespace, optional
sign, a `0x` prefix switches to hexadecimal, then a maximal digit prefix;
`none` is `NaN`. -/
def parseIntJS (s : String) : Option Int :=
  let cs := s.data.dropWhile jsWs
  let signed : Bool × List Char :=
    match cs with
    | '-' :: r => (true, r)
    | '+' :: r => (false, r)
    | _ => (false, cs)
  let mag : Option Nat :=
    match signed.2 with
    | '0' :: 'x' :: r => hexPrefixVal r
    | '0' :: 'X' :: r => hexPrefixVal r
    | r => decPrefixVal r
  mag.map (fun m => if signed.1 then -(m : Int) else (m : Int))

/-- The ECMAScript time-value bound: `new Date(ms)` is invalid beyond
±8.64e15 milliseconds. -/
def DATE_MAX : Int := 8640000000000000

/-- The `formatTimestamp` method.  `some ms` stands for the human-readable
`toLocaleString` rendering of the valid epoch instant `ms` (the rendering
itself carries no information relevant to any claim); `none` is the
returned `null`. -/
def formatTimestamp (timestamp : TsVal) : Option Int :=
  if jsFalsyTs timestamp || timestamp == .str "0" then none
  else
    let ms : Option Int :=
      match timestamp with
      | .str s => parseIntJS s
      | .num n => some n
      | _ => none
    match ms with
    | none => none
    | some m => if m < -DATE_MAX || DATE_MAX < m then none else some m

/-- An assignee as projected by the formatter. -/
structure Assignee where
  id : Int
  username : String
  email : String
deriving DecidableEq

/-- An id/name reference (list, folder or space of a task). -/
structure NameRef where
  id : String
  name : String
deriving DecidableEq

/-- A raw task as read by `formatTaskDates`.  Optional chains of the source
(`task.status?.status`, `task.priority?.priority`, ...) are modelled by the
corresponding flattened optional fields. -/
structure RawTask where
  id : String
  name : String
  description : Option String
  statusStatus : Option String
  assignees : Option (List Assignee)
  priorityPriority : Option String
  priorityColor : Option String
  due_date : TsVal
  start_date : TsVal
  date_created : TsVal
  date_updated : TsVal
  date_done : TsVal
  list : Option NameRef
  folder : Option NameRef
  space : Option NameRef
  tags : Option (List String)
  url : Option String
  time_estimate : Option Int
  time_spent : Option Int
deriving DecidableEq

/-- The projection produced by `formatTaskDates`. -/
structure FormattedTask where
  id : String
  name : String
  description : Option String
  status : Option String
  assignees : List Assignee
  priority : Option String
  priority_color : Option String
  due_date_readable : Option Int
  start_date_readable : Option Int
  date_created_readable : Option Int
  date_updated_readable : Option Int
  date_done_readable : Option Int
  list : Option NameRef
  folder : Option NameRef
  space : Option NameRef
  tags : List String
  url : Option String
  time_estimate : Option Int
  time_spent : Option Int
deriving DecidableEq

/-- The `ternary` guard `raw ? formatTimestamp(raw) : null` applied to each
date field. -/
def readableOf (raw : TsVal) : Option Int :=
  if jsFalsyTs raw then none else formatTimestamp raw

/-- The `formatTaskDates` method.  Note that the output carries no
`custom_fields` property: the projection below is exhaustive. -/
def formatTaskDates (task : RawTask) : FormattedTask :=
  { id := task.id
    name := task.name
    description := jsOrNullStr task.description
    status := jsOrNullStr task.statusStatus
    assignees := task.assignees.getD []
    priority := jsOrNullStr task.priorityPriority
    priority_color := jsOrNullStr task.priorityColor
    due_date_readable := readableOf task.due_date
    start_date_readable := readableOf task.start_date
    date_created_readable := readableOf task.date_created
    date_updated_readable := readableOf task.date_updated
    date_done_readable := readableOf task.date_done
    list := task.list
    folder := task.folder
    space := task.space
    tags := task.tags.getD []
    url := jsOrNullStr task.url
    time_estimate := jsOrNullInt task.time_estimate
    time_spent := jsOrNullInt task.time_spent }

/-! ## Task aggregation (`tasks/search.ts`) -/

/-- A formatted task decorated with its originating workspace. -/
structure TaskWithTeam where
  task : FormattedTask
  teamId : String
  teamName : String
deriving DecidableEq

/-- The pagination descriptor of the aggregated task queries. -/
structure Pagination where
  limit : Int
  page : Int
  hasMore : Bool
  nextPage : Int
deriving DecidableEq

/-- The upstream fetches consumed by the task aggregators.  `fetchTeamTasks`
takes the team id and the compiled query parameters; `.error` is a thrown
or non-ok response (the team is skipped), `.ok none` is a response without
a `tasks` array (the team contributes nothing), `.ok (some l)` is a parsed
task page. -/
structure SearchEnv where
  getUserInfo : Except String String
  getWorkspaces : Except String (List Team)
  fetchTeamTasks : String → List (String × String) → Except String (Option (List RawTask))

/-- The per-team merge loop shared by the three aggregators: skip failing
teams, decorate each formatted task with its team. -/
def mergeTeamTasks (env : SearchEnv) (teams : List Team) (params : String → List (String × String)) :
    List TaskWithTeam :=
  teams.foldl (fun acc team =>
    match env.fetchTeamTasks team.id (params team.id) with
    | .error _ => acc
    | .ok none => acc
    | .ok (some tasks) =>
        acc ++ tasks.map (fun t =>
          { task := formatTaskDates t, teamId := team.id,
            teamName := jsOrStr team.name "Unknown Team" })) []

/-- The `getMyTasks` result. -/
structure MyTasksResult where
  success : Bool
  tasks : List TaskWithTeam
  totalTasks : Nat
  userId : String
  pagination : Pagination
deriving DecidableEq

/-- The `getMyTasks` aggregator ("assigned to me"): resolve the caller's
identity, then query every resolved workspace with the identity bound to
the assignee filter. -/
def getMyTasks (env : SearchEnv) (teamId : Option String) (limit : Int) (page : Int) :
    Except String MyTasksResult :=
  match (do
    let userId ← env.getUserInfo
    let teams ← resolveTeams env.getWorkspaces teamId
    pure (userId, teams) : Except String (String × List Team)) with
  | .error e => .error ("自分のタスク情報の取得に失敗しました: " ++ e)
  | .ok (userId, teams) =>
      let allMyTasks := mergeTeamTasks env teams (fun _ =>
        [("assignees[]", userId), ("limit", toString limit), ("page", toString page)])
      .ok { success := true, tasks := allMyTasks, totalTasks := allMyTasks.length,
            userId := userId,
            pagination := { limit := limit, page := page,
                            hasMore := (allMyTasks.length : Int) == limit,
                            nextPage := page + 1 } }

/-- The `searchTasks` result. -/
structure SearchTasksResult where
  success : Bool
  searchTerm : String
  tasks : List TaskWithTeam
  totalTasks : Nat
  pagination : Pagination
deriving DecidableEq

/-- The `searchTasks` aggregator (keyword search; closed tasks are always
included). -/
def searchTasks (env : SearchEnv) (searchTerm : String) (teamId : Option String)
    (limit : Int) (page : Int) : Except String SearchTasksResult :=
  match resolveTeams env.getWorkspaces teamId with
  | .error e => .error ("タスクの検索に失敗しました: " ++ e)
  | .ok teams =>
      let searchResults := mergeTeamTasks env teams (fun _ =>
        [("search", searchTerm), ("limit", toString limit), ("page", toString page),
         ("include_closed", "true")])
      .ok { success := true, searchTerm := searchTerm, tasks := searchResults,
            totalTasks := searchResults.length,
            pagination := { limit := limit, page := page,
                            hasMore := (searchResults.length : Int) == limit,
                            nextPage := page + 1 } }

/-! ## Advanced search (`tasks/advanced-search.ts`) -/

/-- The `AdvancedSearchFilters` object; absent options are `none`. -/
structure AdvancedSearchFilters where
  searchTerm : Option String
  statuses : Option (List String)
  priorities : Option (List Int)
  assigneeIds : Option (List String)
  creatorIds : Option (List String)
  dueDateFrom : Option Int
  dueDateTo : Option Int
  startDateFrom : Option Int
  startDateTo : Option Int
  createdDateFrom : Option Int
  createdDateTo : Option Int
  updatedDateFrom : Option Int
  updatedDateTo : Option Int
  tags : Option (List String)
  parentTaskId : Option String
  includeSubtasks : Option Bool
  includeArchived : Option Bool
  includeClosed : Option Bool
  customFields : Option (List (String × J))
  limit : Option Int
  page : Option Int
  teamId : Option String

/-- An `AdvancedSearchFilters` with every option absent. -/
def emptyFilters : AdvancedSearchFilters :=
  { searchTerm := none, statuses := none, priorities := none, assigneeIds := none,
    creatorIds := none, dueDateFrom := none, dueDateTo := none, startDateFrom := none,
    startDateTo := none, createdDateFrom := none, createdDateTo := none,
    updatedDateFrom := none, updatedDateTo := none, tags := none, parentTaskId := none,
    includeSubtasks := none, includeArchived := none, includeClosed := none,
    customFields := none, limit := none, page := none, teamId := none }

/-- Render a boolean the way `toString()` does. -/
def boolStr (b : Bool) : String := if b then "true" else "false"

/-- The compiled remote query parameters of `setSearchParameters`, in the
order the source writes them.  Every key is written by exactly one branch,
so the `URLSearchParams.set`/`append` distinction does not matter.  A
`truthy` guard (`if (filters.x)`) makes an empty string or a zero count as
absent; a length guard makes an empty list count as absent; the three
boolean options use an `!== undefined` guard instead. -/
def setSearchParameters (filters : AdvancedSearchFilters) : List (String × String) :=
  (match filters.searchTerm with
   | some s => if s = "" then [] else [("search", s)]
   | none => []) ++
  [("limit", toString (jsOrInt filters.limit 15)), ("page", toString (jsOrInt filters.page 0))] ++
  (match filters.statuses with
   | some l => if l.length > 0 then l.map (fun s => ("statuses[]", s)) else []
   | none => []) ++
  (match filters.priorities with
   | some l => if l.length > 0 then l.map (fun p => ("priorities[]", toString p)) else []
   | none => []) ++
  (match filters.assigneeIds with
   | some l => if l.length > 0 then l.map (fun a => ("assignees[]", a)) else []
   | none => []) ++
  (match filters.creatorIds with
   | some l => if l.length > 0 then l.map (fun c => ("creators[]", c)) else []
   | none => []) ++
  (match filters.tags with
   | some l => if l.length > 0 then l.map (fun t => ("tags[]", t)) else []
   | none => []) ++
  (match filters.parentTaskId with
   | some p => if p = "" then [] else [("parent", p)]
   | none => []) ++
  (match filters.dueDateFrom with
   | some v => if v = 0 then [] else [("due_date_gt", toString v)]
   | none => []) ++
  (match filters.dueDateTo with
   | some v => if v = 0 then [] else [("due_date_lt", toString v)]
   | none => []) ++
  (match filters.startDateFrom with
   | some v => if v = 0 then [] else [("start_date_gt", toString v)]
   | none => []) ++
  (match filters.startDateTo with
   | some v => if v = 0 then [] else [("start_date_lt", toString v)]
   | none => []) ++
  (match filters.createdDateFrom with
   | some v => if v = 0 then [] else [("date_created_gt", toString v)]
   | none => []) ++
  (match filters.createdDateTo with
   | some v => if v = 0 then [] else [("date_created_lt", toString v)]
   | none => []) ++
  (match filters.updatedDateFrom with
   | some v => if v = 0 then [] else [("date_updated_gt", toString v)]
   | none => []) ++
  (match filters.updatedDateTo with
   | some v => if v = 0 then [] else [("date_updated_lt", toString v)]
   | none => []) ++
  (match filters.includeSubtasks with
   | some b => [("subtasks", boolStr b)]
   | none => []) ++
  (match filters.includeArchived with
   | some b => [("include_archived", boolStr b)]
   | none => []) ++
  (match filters.includeClosed with
   | some b => [("include_closed", boolStr b)]
   | none => [])

/-- A custom field of a task, as consulted by the local filter. -/
structure CustomField where
  id : String
  value : J

/-- The `Number(v)` coercion for the values that can appear in a custom
field: `null` is 0, booleans are 0/1, strings parse as decimal numerals
(empty or blank is 0), singleton arrays coerce through their element and
the empty array is 0; everything else is `NaN` (`none`).  Hexadecimal
string literals and `Infinity` are not modelled — no claim involves
them. -/
def jsToNumber : J → Option Rat
  | .null => some 0
  | .undef => none
  | .bool true => some 1
  | .bool false => some 0
  | .num q => some q
  | .str s =>
      let cs := (s.data.dropWhile jsWs).reverse.dropWhile jsWs |>.reverse
      if cs.isEmpty then some 0
      else
        (match cs with
         | '+' :: r => (pNumber r).bind (fun p => if p.2.isEmpty then some p.1 else none)
         | r => (pNumber r).bind (fun p => if p.2.isEmpty then some p.1 else none))
  | .arr [] => some 0
  | .arr [x] => jsToNumber x
  | .arr (_ :: _ :: _) => none
  | .obj _ => none

/-- The `numValue >= bound` comparison of the range filter: numeric
coercion on both sides, `false` whenever either is `NaN`. -/
def jsGeNum (a : Option Rat) (b : J) : Bool :=
  match a, jsToNumber b with
  | some x, some y => y ≤ x
  | _, _ => false

/-- The `numValue <= bound` comparison of the range filter. -/
def jsLeNum (a : Option Rat) (b : J) : Bool :=
  match a, jsToNumber b with
  | some x, some y => x ≤ y
  | _, _ => false

/-- Property access used by the `min`/`max` probe: a present-but-undefined
member counts as undefined. -/
def jGetOpt (kvs : List (String × J)) (k : String) : Option J :=
  match jLookup kvs k with
  | some .undef => none
  | o => o

/-- The per-entry check of `filterByCustomFields`: set membership for an
array expectation, an inclusive numeric range for an object carrying both
`min` and `max`, strict equality otherwise.  `none` models the `TypeError`
thrown when the expected value is `null` (whose `typeof` is `"object"`,
so the source dereferences `.min` on it). -/
def checkCustomFieldValue (actualValue expectedValue : J) : Option Bool :=
  match expectedValue with
  | .arr xs => some (xs.any (fun x => jsStrictEq x actualValue))
  | .null => none
  | .obj kvs =>
      (match jGetOpt kvs "min", jGetOpt kvs "max" with
       | some mn, some mx =>
           some (jsGeNum (jsToNumber actualValue) mn && jsLeNum (jsToNumber actualValue) mx)
       | _, _ => some (jsStrictEq actualValue expectedValue))
  | _ => some (jsStrictEq actualValue expectedValue)

/-- The `Object.entries(customFields).every(...)` loop, with its
short-circuit: a `false` entry stops evaluation before a later entry could
throw. -/
def checkEntries (cfs : List CustomField) : List (String × J) → Option Bool
  | [] => some true
  | (fieldId, expectedValue) :: rest =>
      match cfs.find? (fun cf => cf.id = fieldId) with
      | none => some false
      | some customField =>
          match checkCustomFieldValue customField.value expectedValue with
          | none => none
          | some false => some false
          | some true => checkEntries cfs rest

/-- The per-task predicate of `filterByCustomFields`: a task without a
`custom_fields` property is dropped outright.  The accessor argument
models the duck-typed property read. -/
def taskRetained {α : Type} (getCF : α → Option (List CustomField))
    (customFields : List (String × J)) (task : α) : Option Bool :=
  match getCF task with
  | none => some false
  | some cfs => checkEntries cfs customFields

/-- The `filterByCustomFields` method; `none` models a thrown `TypeError`
(aborting the whole filter), as distinct from a completed filter. -/
def filterByCustomFields {α : Type} (getCF : α → Option (List CustomField))
    (tasks : List α) (customFields : List (String × J)) : Option (List α) :=
  match tasks with
  | [] => some []
  | t :: rest => do
      let keep ← taskRetained getCF customFields t
      let out ← filterByCustomFields getCF rest customFields
      pure (if keep then t :: out else out)

/-- The `searchTasksAdvanced` result. -/
structure AdvSearchResult where
  success : Bool
  tasks : List TaskWithTeam
  totalTasks : Nat
  pagination : Pagination

/-- The `searchTasksAdvanced` aggregator: compile the filters, merge the
per-team pages, then apply the local custom-field filter when the
`customFields` option is present (an empty mapping is still an object and
is truthy).  The merged tasks have passed through `formatTaskDates`, whose
projection carries no `custom_fields` property, so the accessor passed to
the filter is constantly `none`. -/
def searchTasksAdvanced (env : SearchEnv) (filters : AdvancedSearchFilters) :
    Except String AdvSearchResult :=
  match (do
    let teams ← resolveTeams env.getWorkspaces filters.teamId
    let searchResults := mergeTeamTasks env teams (fun _ => setSearchParameters filters)
    let filteredResults ←
      (match filters.customFields with
       | some m =>
           match filterByCustomFields (fun (_ : TaskWithTeam) => none) searchResults m with
           | some r => .ok r
           | none => .error "TypeError"
       | none => .ok searchResults : Except String (List TaskWithTeam))
    pure filteredResults : Except String (List TaskWithTeam)) with
  | .error e => .error ("詳細タスク検索に失敗しました: " ++ e)
  | .ok filteredResults =>
      .ok { success := true, tasks := filteredResults, totalTasks := filteredResults.length,
            pagination := { limit := jsOrInt filters.limit 15, page := jsOrInt filters.page 0,
                            hasMore := (filteredResults.length : Int) == jsOrInt filters.limit 15,
                            nextPage := jsOrInt filters.page 0 + 1 } }

/-! ## The sign/verify pair of the spec

The specification's `sign(L, S)` and `verify(sig, L, S)` are the code's
`importKey`/`signData` and `importKey`/`verifySignature` composed over the
JSON serialization of the consent list. -/

/-- Sign a consent list with a secret (the cookie-production path). -/
def signConsent (L : List String) (S : String) : Except String String := do
  let key ← importKey S
  pure (signData key (String.mk (stringifyJ (J.arr (L.map J.str)))))

/-- Verify a hex signature of a consent list against a secret (the
cookie-acceptance path). -/
def verifyConsent (sigHex : String) (L : List String) (S : String) : Except String Bool := do
  let key ← importKey S
  pure (verifySignature key sigHex (String.mk (stringifyJ (J.arr (L.map J.str)))))

/-! ## Lemmas: byte ranges and the hex round-trip -/

theorem mem_wordBytes_lt {b w : Nat} (h : b ∈ wordBytes w) : b < 256 := by
  simp only [wordBytes, List.mem_cons, List.not_mem_nil, or_false] at h
  rcases h with h | h | h | h <;> subst h <;> exact Nat.mod_lt _ (by norm_num)

theorem sha256_mem_lt {b : Nat} {msg : List Nat} (h : b ∈ sha256 msg) : b < 256 := by
  simp only [sha256, List.mem_flatten, List.mem_map] at h
  obtain ⟨l, ⟨w, _, rfl⟩, hb⟩ := h
  exact mem_wordBytes_lt hb

theorem hmacSha256_mem_lt {b : Nat} {key msg : List Nat} (h : b ∈ hmacSha256 key msg) :
    b < 256 := by
  simp only [hmacSha256] at h
  exact sha256_mem_lt h

theorem parseHexChunkJS_byteHex : ∀ b : Fin 256, parseHexChunkJS (byteHex b.val) = b.val := by
  decide

theorem hexRoundTrip (bs : List Nat) (h : ∀ b ∈ bs, b < 256) :
    (chunk2 (hexOfBytes bs)).map parseHexChunkJS = bs := by
  induction bs with
  | nil => rfl
  | cons b bs ih =>
      have hb : b < 256 := h b (List.mem_cons_self b bs)
      have hbs : ∀ x ∈ bs, x < 256 := fun x hx => h x (List.mem_cons_of_mem b hx)
      have hbyte : byteHex b = [hexDigitChar (b / 16), hexDigitChar (b % 16)] := rfl
      have : hexOfBytes (b :: bs) =
          hexDigitChar (b / 16) :: hexDigitChar (b % 16) :: hexOfBytes bs := by
        simp [hexOfBytes, byteHex]
      rw [this]
      show parseHexChunkJS [hexDigitChar (b / 16), hexDigitChar (b % 16)] ::
        (chunk2 (hexOfBytes bs)).map parseHexChunkJS = b :: bs
      rw [ih hbs]
      have := parseHexChunkJS_byteHex ⟨b, hb⟩
      rw [hbyte] at this
      rw [this]

/-- Recomputing and comparing the signature produced by `signData` always
succeeds: the hex encode/decode pair is the identity on HMAC outputs. -/
theorem verifySignature_signData (key : List Nat) (data : String) :
    verifySignature key (signData key data) data = true := by
  unfold verifySignature signData
  have : (String.mk (hexOfBytes (hmacSha256 key (utf8Encode data)))).data =
      hexOfBytes (hmacSha256 key (utf8Encode data)) := rfl
  rw [this, hexRoundTrip _ (fun b hb => hmacSha256_mem_lt hb)]
  simp

/-- C1: the claim asserts that `isApproved` returns `false` and never
throws on every malformed cookie; the code contradicts its own doc
comment on the invalid-base64 case, where the unguarded `atob` on line 142
of `workers-oauth-utils.ts` throws.  This theorem evaluates the code on
the malformed classes: missing cookie, wrong part count, signature
mismatch, non-array payload and non-string element all yield `.ok false`,
but an invalid base64 payload yields a thrown `InvalidCharacterError`. -/
theorem clientIdAlreadyApproved_malformed_cookie_evaluation :
    clientIdAlreadyApproved ⟨"GET", some "mcp-approved-clients=aa.%%%", none⟩ "c" "s"
      = .error "InvalidCharacterError" ∧
    clientIdAlreadyApproved ⟨"GET", none, none⟩ "c" "s" = .ok false ∧
    clientIdAlreadyApproved ⟨"GET", some "other=1", none⟩ "c" "s" = .ok false ∧
    clientIdAlreadyApproved ⟨"GET", some "mcp-approved-clients=a.b.c", none⟩ "c" "s"
      = .ok false ∧
    clientIdAlreadyApproved ⟨"GET", some ("mcp-approved-clients=" ++
      "0000000000000000000000000000000000000000000000000000000000000000.W10="), none⟩ "c" "s"
      = .ok false ∧
    clientIdAlreadyApproved ⟨"GET", some ("mcp-approved-clients=" ++
      signData (utf8Encode "s") "\x7b\x7d" ++ ".e30="), none⟩ "c" "s" = .ok false ∧
    clientIdAlreadyApproved ⟨"GET", some ("mcp-approved-clients=" ++
      signData (utf8Encode "s") "[\"a\",5]" ++ ".WyJhIiw1XQ=="), none⟩ "c" "s" = .ok false :=
  ⟨rfl, rfl, rfl, rfl, rfl, rfl, rfl⟩

/-- C2 (amended): for every consent list and nonempty secret, verifying
the signature produced by signing succeeds. -/
theorem consent_sign_verify_roundtrip (L : List String) (S : String) (hS : S ≠ "") :
    (do let sig ← signConsent L S; verifyConsent sig L S) = .ok true := by
  have hk : importKey S = .ok (utf8Encode S) := by simp [importKey, hS]
  unfold signConsent verifyConsent
  rw [hk]
  show Except.ok (verifySignature (utf8Encode S)
    (signData (utf8Encode S) (String.mk (stringifyJ (J.arr (L.map J.str)))))
    (String.mk (stringifyJ (J.arr (L.map J.str))))) = Except.ok true
  rw [verifySignature_signData]

/-- Witness for the round-trip theorem at a concrete list and secret. -/
theorem consent_sign_verify_roundtrip_witness :
    ("secret" : String) ≠ "" ∧
    (do let sig ← signConsent ["client-1"] "secret";
        verifyConsent sig ["client-1"] "secret") = .ok true :=
  ⟨by decide, consent_sign_verify_roundtrip ["client-1"] "secret" (by decide)⟩

/-- C2 counterexample: the claim also asserts that verification under any
distinct secret fails, and that the round trip holds for every secret.
Both universal statements are false: HMAC zero-pads short keys, so the
distinct secrets `"abc"` and `"abc\x00"` derive the same padded key block
and accept each other's signatures; and an empty secret throws in
`importKey` instead of verifying. -/
theorem consent_cross_secret_counterexample :
    ("abc" : String) ≠ "abc\x00" ∧
    (do let sig ← signConsent ["x"] "abc";
        verifyConsent sig ["x"] "abc\x00") = .ok true ∧
    signConsent ["x"] ""
      = .error "COOKIE_SECRET is not defined. A secret key is required for signing cookies." :=
  ⟨by decide, rfl, rfl⟩

/-! ## Lemmas: the base64 round-trip `atob (btoa s) = s` -/

/-- The base64 text of a byte list without its `=` padding. -/
def b64Body : List Nat → List Char
  | b0 :: b1 :: b2 :: rest =>
      b64Char (b0 / 4) :: b64Char (b0 % 4 * 16 + b1 / 16) ::
      b64Char (b1 % 16 * 4 + b2 / 64) :: b64Char (b2 % 64) :: b64Body rest
  | [b0, b1] => [b64Char (b0 / 4), b64Char (b0 % 4 * 16 + b1 / 16), b64Char (b1 % 16 * 4)]
  | [b0] => [b64Char (b0 / 4), b64Char (b0 % 4 * 16)]
  | [] => []

/-- The sextet values of a byte list. -/
def b64Sextets : List Nat → List Nat
  | b0 :: b1 :: b2 :: rest =>
      b0 / 4 :: (b0 % 4 * 16 + b1 / 16) :: (b1 % 16 * 4 + b2 / 64) :: b2 % 64 :: b64Sextets rest
  | [b0, b1] => [b0 / 4, b0 % 4 * 16 + b1 / 16, b1 % 16 * 4]
  | [b0] => [b0 / 4, b0 % 4 * 16]
  | [] => []

theorem b64Val_b64Char : ∀ n : Fin 64, b64Val (b64Char n.val) = some n.val := by decide

theorem b64Char_ne_eqsign : ∀ n : Fin 64, b64Char n.val ≠ '=' := by decide

theorem b64Char_not_ws : ∀ n : Fin 64, b64Ws (b64Char n.val) = false := by decide

/-- Every character emitted by `btoaGroups` is an alphabet character or the
padding `=`. -/
theorem mem_btoaGroups {c : Char} :
    ∀ {bs : List Nat}, (∀ b ∈ bs, b < 256) → c ∈ btoaGroups bs →
      (∃ n : Fin 64, c = b64Char n.val) ∨ c = '=' := by
  intro bs
  induction bs using btoaGroups.induct with
  | case1 b0 b1 b2 rest ih =>
      intro hb hc
      have h0 : b0 < 256 := hb _ (by simp)
      have h1 : b1 < 256 := hb _ (by simp)
      have h2 : b2 < 256 := hb _ (by simp)
      simp only [btoaGroups, List.mem_cons] at hc
      rcases hc with rfl | rfl | rfl | rfl | hc
      · exact .inl ⟨⟨b0 / 4, by omega⟩, rfl⟩
      · exact .inl ⟨⟨b0 % 4 * 16 + b1 / 16, by omega⟩, rfl⟩
      · exact .inl ⟨⟨b1 % 16 * 4 + b2 / 64, by omega⟩, rfl⟩
      · exact .inl ⟨⟨b2 % 64, by omega⟩, rfl⟩
      · exact ih (fun b h => hb b (by simp [h])) hc
  | case2 b0 b1 =>
      intro hb hc
      have h0 : b0 < 256 := hb _ (by simp)
      have h1 : b1 < 256 := hb _ (by simp)
      simp only [btoaGroups, List.mem_cons, List.not_mem_nil, or_false] at hc
      rcases hc with rfl | rfl | rfl | rfl
      · exact .inl ⟨⟨b0 / 4, by omega⟩, rfl⟩
      · exact .inl ⟨⟨b0 % 4 * 16 + b1 / 16, by omega⟩, rfl⟩
      · exact .inl ⟨⟨b1 % 16 * 4, by omega⟩, rfl⟩
      · exact .inr rfl
  | case3 b0 =>
      intro hb hc
      have h0 : b0 < 256 := hb _ (by simp)
      simp only [btoaGroups, List.mem_cons, List.not_mem_nil, or_false] at hc
      rcases hc with rfl | rfl | rfl | rfl
      · exact .inl ⟨⟨b0 / 4, by omega⟩, rfl⟩
      · exact .inl ⟨⟨b0 % 4 * 16, by omega⟩, rfl⟩
      · exact .inr rfl
      · exact .inr rfl
  | case4 => intro _ hc; simp [btoaGroups] at hc

theorem btoaGroups_not_ws {bs : List Nat} (hb : ∀ b ∈ bs, b < 256) :
    ∀ c ∈ btoaGroups bs, b64Ws c = false := by
  intro c hc
  rcases mem_btoaGroups hb hc with ⟨n, rfl⟩ | rfl
  · simpa using b64Char_not_ws n
  · decide

theorem btoaGroups_length_mod (bs : List Nat) : (btoaGroups bs).length % 4 = 0 := by
  induction bs using btoaGroups.induct with
  | case1 b0 b1 b2 rest ih => simp only [btoaGroups, List.length_cons]; omega
  | case2 b0 b1 => simp [btoaGroups]
  | case3 b0 => simp [btoaGroups]
  | case4 => rfl

theorem stripTrailingEq_append (p X : List Char) (h : 2 ≤ X.length) :
    stripTrailingEq (p ++ X) = p ++ stripTrailingEq X := by
  obtain ⟨x, y, r, hX⟩ : ∃ x y r, X.reverse = x :: y :: r := by
    cases hXr : X.reverse with
    | nil =>
        exfalso
        have hX0 : X = [] := by simpa using congrArg List.reverse hXr
        rw [hX0] at h
        simp at h
    | cons a t =>
        cases t with
        | nil =>
            exfalso
            have hX1 : X = [a] := by simpa using congrArg List.reverse hXr
            rw [hX1] at h
            simp at h
        | cons b t2 => exact ⟨a, b, t2, rfl⟩
  have hXval : X = (x :: y :: r).reverse := by rw [← hX, List.reverse_reverse]
  unfold stripTrailingEq
  rw [List.reverse_append, hX]
  simp only [List.cons_append]
  by_cases hx : x = '='
  · subst hx
    simp only [if_pos rfl]
    by_cases hy : y = '='
    · subst hy
      simp only [if_pos rfl]
      rw [hXval]
      simp [List.reverse_append]
    · simp only [if_neg hy]
      rw [hXval]
      simp [List.reverse_append]
  · simp only [if_neg hx]

theorem btoaGroups_length_ge {bs : List Nat} (h : bs ≠ []) : 4 ≤ (btoaGroups bs).length := by
  induction bs using btoaGroups.induct with
  | case1 b0 b1 b2 rest ih => simp [btoaGroups]
  | case2 b0 b1 => simp [btoaGroups]
  | case3 b0 => simp [btoaGroups]
  | case4 => exact absurd rfl h

theorem b64Char_ne_eqsign' (n : Nat) (h : n < 64) : b64Char n ≠ '=' :=
  b64Char_ne_eqsign ⟨n, h⟩

theorem stripTrailingEq_btoaGroups (bs : List Nat) :
    stripTrailingEq (btoaGroups bs) = b64Body bs := by
  induction bs using btoaGroups.induct with
  | case1 b0 b1 b2 rest ih =>
      by_cases hrest : rest = []
      · subst hrest
        have hq3 : b64Char (b2 % 64) ≠ '=' := b64Char_ne_eqsign' _ (by omega)
        simp [btoaGroups, b64Body, stripTrailingEq, hq3]
      · have h4 : 2 ≤ (btoaGroups rest).length := le_trans (by omega) (btoaGroups_length_ge hrest)
        have hsplit : btoaGroups (b0 :: b1 :: b2 :: rest) =
            [b64Char (b0 / 4), b64Char (b0 % 4 * 16 + b1 / 16),
             b64Char (b1 % 16 * 4 + b2 / 64), b64Char (b2 % 64)] ++ btoaGroups rest := by
          simp [btoaGroups]
        rw [hsplit, stripTrailingEq_append _ _ h4, ih]
        simp [b64Body]
  | case2 b0 b1 =>
      have hq2 : b64Char (b1 % 16 * 4) ≠ '=' := b64Char_ne_eqsign' _ (by omega)
      simp [btoaGroups, b64Body, stripTrailingEq, hq2]
  | case3 b0 =>
      simp [btoaGroups, b64Body, stripTrailingEq]
  | case4 => rfl

theorem b64Body_length_mod (bs : List Nat) : (b64Body bs).length % 4 ≠ 1 := by
  induction bs using b64Body.induct with
  | case1 b0 b1 b2 rest ih =>
      simp only [b64Body, List.length_cons]
      omega
  | case2 b0 b1 => simp [b64Body]
  | case3 b0 => simp [b64Body]
  | case4 => simp [b64Body]

theorem mapB64_b64Body {bs : List Nat} (hb : ∀ b ∈ bs, b < 256) :
    mapB64 (b64Body bs) = some (b64Sextets bs) := by
  induction bs using b64Body.induct with
  | case1 b0 b1 b2 rest ih =>
      have h0 : b0 < 256 := hb _ (by simp)
      have h1 : b1 < 256 := hb _ (by simp)
      have h2 : b2 < 256 := hb _ (by simp)
      have e0 := b64Val_b64Char ⟨b0 / 4, by omega⟩
      have e1 := b64Val_b64Char ⟨b0 % 4 * 16 + b1 / 16, by omega⟩
      have e2 := b64Val_b64Char ⟨b1 % 16 * 4 + b2 / 64, by omega⟩
      have e3 := b64Val_b64Char ⟨b2 % 64, by omega⟩
      simp only at e0 e1 e2 e3
      have ihr := ih (fun b h => hb b (by simp [h]))
      simp [b64Body, b64Sextets, mapB64, e0, e1, e2, e3, ihr]
  | case2 b0 b1 =>
      have h0 : b0 < 256 := hb _ (by simp)
      have h1 : b1 < 256 := hb _ (by simp)
      have e0 := b64Val_b64Char ⟨b0 / 4, by omega⟩
      have e1 := b64Val_b64Char ⟨b0 % 4 * 16 + b1 / 16, by omega⟩
      have e2 := b64Val_b64Char ⟨b1 % 16 * 4, by omega⟩
      simp only at e0 e1 e2
      simp [b64Body, b64Sextets, mapB64, e0, e1, e2]
  | case3 b0 =>
      have h0 : b0 < 256 := hb _ (by simp)
      have e0 := b64Val_b64Char ⟨b0 / 4, by omega⟩
      have e1 := b64Val_b64Char ⟨b0 % 4 * 16, by omega⟩
      simp only at e0 e1
      simp [b64Body, b64Sextets, mapB64, e0, e1]
  | case4 => rfl

theorem atobCore_b64Sextets {bs : List Nat} (hb : ∀ b ∈ bs, b < 256) :
    atobCore (b64Sextets bs) = some bs := by
  induction bs using b64Sextets.induct with
  | case1 b0 b1 b2 rest ih =>
      have h0 : b0 < 256 := hb _ (by simp)
      have h1 : b1 < 256 := hb _ (by simp)
      have h2 : b2 < 256 := hb _ (by simp)
      have ihr := ih (fun b h => hb b (by simp [h]))
      simp only [b64Sextets, atobCore, ihr, Option.map_some', Option.some.injEq,
        List.cons.injEq, and_true, true_and]
      omega
  | case2 b0 b1 =>
      have h0 : b0 < 256 := hb _ (by simp)
      have h1 : b1 < 256 := hb _ (by simp)
      simp only [b64Sextets, atobCore, Option.some.injEq, List.cons.injEq, and_true, true_and]
      omega
  | case3 b0 =>
      have h0 : b0 < 256 := hb _ (by simp)
      simp only [b64Sextets, atobCore, Option.some.injEq, List.cons.injEq, and_true, true_and]
      omega
  | case4 => rfl

/-- Decoding the base64 text of a byte list recovers the bytes. -/
theorem atob_btoaGroups {bs : List Nat} (hb : ∀ b ∈ bs, b < 256) :
    atob (String.mk (btoaGroups bs)) = .ok (String.mk (bs.map Char.ofNat)) := by
  have hfilter : (String.mk (btoaGroups bs)).data.filter (fun c => !b64Ws c) = btoaGroups bs := by
    show (btoaGroups bs).filter (fun c => !b64Ws c) = btoaGroups bs
    rw [List.filter_eq_self]
    intro a ha
    simp [btoaGroups_not_ws hb a ha]
  unfold atob
  rw [hfilter, if_pos (btoaGroups_length_mod bs), stripTrailingEq_btoaGroups]
  unfold atobTail
  rw [if_neg (b64Body_length_mod bs), mapB64_b64Body hb]
  show (match atobCore (b64Sextets bs) with
        | some bytes => Except.ok (String.mk (bytes.map Char.ofNat))
        | none => Except.error "InvalidCharacterError") = _
  rw [atobCore_b64Sextets hb]

/-- The base64 round-trip: whatever `btoa` produced, `atob` decodes back. -/
theorem atob_btoa {s t : String} (h : btoa s = .ok t) : atob t = .ok s := by
  unfold btoa at h
  by_cases hall : s.data.all (fun c => c.toNat < 256)
  · rw [if_pos hall] at h
    have ht : t = String.mk (btoaGroups (s.data.map Char.toNat)) := by
      injection h with h2
      exact h2.symm
    subst ht
    have hb : ∀ b ∈ s.data.map Char.toNat, b < 256 := by
      intro b hbm
      simp only [List.mem_map] at hbm
      obtain ⟨c, hc, rfl⟩ := hbm
      have := List.all_eq_true.mp hall c hc
      simpa using this
    rw [atob_btoaGroups hb]
    congr 1
    rw [List.map_map]
    have : (Char.ofNat ∘ Char.toNat) = id := by
      funext c
      exact Char.ofNat_toNat c
    rw [this, List.map_id]
  · rw [if_neg hall] at h
    exact absurd h (by simp)

/-! ## Lemmas: `JSON.parse` inverts `JSON.stringify` on string arrays -/

theorem hexVal_hexDigitChar : ∀ n : Fin 16, hexVal (hexDigitChar n.val) = some n.val := by
  decide

theorem skipWs_cons {c : Char} {r : List Char} (h : jsonWs c = false) :
    skipWs (c :: r) = c :: r := by
  simp [skipWs, List.dropWhile_cons, h]

set_option maxHeartbeats 2000000 in
/-- Parsing the `JSON.stringify` escape of one character prepends that
character, whatever follows. -/
theorem pStringBody_escChar (c : Char) (tail : List Char) :
    pStringBody (escChar c ++ tail) = (pStringBody tail).map (fun p => (c :: p.1, p.2)) := by
  by_cases h1 : c = '"'
  · subst h1; rfl
  · by_cases h2 : c = '\\'
    · subst h2; rfl
    · by_cases h3 : c = '\x08'
      · subst h3; rfl
      · by_cases h4 : c = '\x09'
        · subst h4; rfl
        · by_cases h5 : c = '\x0a'
          · subst h5; rfl
          · by_cases h6 : c = '\x0c'
            · subst h6; rfl
            · by_cases h7 : c = '\x0d'
              · subst h7; rfl
              · by_cases h8 : c.toNat < 32
                · have hc : c = Char.ofNat c.toNat := (Char.ofNat_toNat c).symm
                  set n := c.toNat with hn
                  interval_cases n <;>
                    first
                      | exact absurd hc h3
                      | exact absurd hc h4
                      | exact absurd hc h5
                      | exact absurd hc h6
                      | exact absurd hc h7
                      | (rw [hc]; rfl)
                · simp only [escChar, if_neg h1, if_neg h2, if_neg h3, if_neg h4, if_neg h5,
                    if_neg h6, if_neg h7, if_neg h8, List.cons_append, List.nil_append]
                  simp only [pStringBody, pStrRun, if_neg h1, if_neg h2, if_neg h8]

theorem pStringBody_escBody (cs : List Char) (rest : List Char) :
    pStringBody (List.flatten (cs.map escChar) ++ '"' :: rest) = some (cs, rest) := by
  induction cs with
  | nil =>
      simp only [List.map_nil, List.flatten_nil, List.nil_append]
      rfl
  | cons c cs ih =>
      simp only [List.map_cons, List.flatten_cons, List.append_assoc]
      rw [pStringBody_escChar, ih]
      rfl

/-- Parsing a serialized string literal yields the string. -/
theorem pValue_escString (s : String) (d : Nat) (rest : List Char) :
    pValue (d + 1) (escString s ++ rest) = some (J.str s, rest) := by
  have hesc : escString s ++ rest = '"' :: (List.flatten (s.data.map escChar) ++ '"' :: rest) := by
    simp [escString]
  rw [hesc]
  have hskip : skipWs ('"' :: (List.flatten (s.data.map escChar) ++ '"' :: rest)) =
      '"' :: (List.flatten (s.data.map escChar) ++ '"' :: rest) := skipWs_cons (by decide)
  simp only [pValue, hskip, pStringBody_escBody, Option.map_some']

theorem stringifyItems_length_ge (l : List String) :
    l.length ≤ (stringifyItems (l.map J.str)).length := by
  induction l with
  | nil => simp
  | cons x tail ih =>
      cases tail with
      | nil => simp [stringifyItems, stringifyJ, escString]
      | cons y tail2 =>
          simp only [List.map_cons, stringifyItems, List.length_append, List.length_cons] at *
          have : 1 ≤ (stringifyJ (J.str x)).length := by
            simp [stringifyJ, escString]
          omega

theorem pItems_last_elem (D : Nat) (s : String) (rest : List Char) :
    pItems (D + 2) (escString s ++ ']' :: rest) = some ([J.str s], rest) := by
  rw [show D + 2 = (D + 1) + 1 from rfl, pItems.eq_2, pValue_escString]
  simp only [Option.bind_eq_bind, Option.some_bind]
  rw [@skipWs_cons ']' rest (by decide)]
  rfl

theorem pItems_cons_elem (D : Nat) (s : String) (X : List Char) :
    pItems (D + 2) (escString s ++ ',' :: X) =
      (pItems (D + 1) X).map (fun p => (J.str s :: p.1, p.2)) := by
  rw [show D + 2 = (D + 1) + 1 from rfl, pItems.eq_2, pValue_escString]
  simp only [Option.bind_eq_bind, Option.some_bind]
  rw [@skipWs_cons ',' X (by decide)]
  rfl

/-- Parsing the serialized elements of a nonempty string array, given
enough fuel, yields the elements. -/
theorem pItems_strings (l : List String) (d : Nat) (rest : List Char) (hne : l ≠ []) :
    pItems (l.length + d + 1) (stringifyItems (l.map J.str) ++ ']' :: rest)
      = some (l.map J.str, rest) := by
  induction l generalizing d with
  | nil => exact absurd rfl hne
  | cons x tail ih =>
      cases tail with
      | nil =>
          have hone : stringifyItems ([x].map J.str) = escString x := rfl
          have hlen1 : ([x] : List String).length + d + 1 = d + 2 := by
            simp only [List.length_cons, List.length_nil]
            omega
          rw [hone, hlen1, pItems_last_elem]
          rfl
      | cons y tail2 =>
          have harr : stringifyItems ((x :: y :: tail2).map J.str) ++ ']' :: rest =
              escString x ++ ',' :: (stringifyItems ((y :: tail2).map J.str) ++ ']' :: rest) := by
            simp [stringifyItems, stringifyJ]
          rw [harr]
          have hfuel : (x :: y :: tail2).length + d + 1 = ((y :: tail2).length + d) + 2 := by
            simp only [List.length_cons]
            omega
          rw [hfuel, pItems_cons_elem]
          rw [ih d (by simp)]
          rfl

theorem pValue_brackets (D : Nat) (t : List Char) :
    pValue (D + 1) ('[' :: '"' :: t) =
      (pItems D ('"' :: t)).map (fun p => (J.arr p.1, p.2)) := rfl

/-- The round trip: parsing the `JSON.stringify` text of an array of
strings yields exactly that array. -/
theorem jsonParse_stringify_strings (l : List String) :
    jsonParse (String.mk (stringifyJ (J.arr (l.map J.str)))) = some (J.arr (l.map J.str)) := by
  cases l with
  | nil => rfl
  | cons x tail =>
      set l := x :: tail with hl
      have hdata : (String.mk (stringifyJ (J.arr (l.map J.str)))).data =
          '[' :: (stringifyItems (l.map J.str) ++ [']']) := by
        simp [stringifyJ]
      unfold jsonParse
      rw [hdata]
      have hlen : ('[' :: (stringifyItems (l.map J.str) ++ [']'])).length =
          (stringifyItems (l.map J.str)).length + 2 := by simp
      rw [hlen]
      have hge := stringifyItems_length_ge l
      obtain ⟨d, hd⟩ : ∃ d, 2 * ((stringifyItems (l.map J.str)).length + 2) + 2 =
          (l.length + d + 1) + 1 := ⟨2 * (stringifyItems (l.map J.str)).length + 4 - l.length,
            by omega⟩
      rw [hd]
      have hheadchar : ∃ t, stringifyItems (l.map J.str) ++ [']'] = '"' :: t := by
        cases tail with
        | nil => exact ⟨(List.flatten (x.data.map escChar) ++ ['"']) ++ [']'],
            by simp [hl, stringifyItems, stringifyJ, escString]⟩
        | cons y t2 => exact ⟨(List.flatten (x.data.map escChar) ++ ['"']) ++
            ',' :: stringifyItems ((y :: t2).map J.str) ++ [']'],
            by simp [hl, stringifyItems, stringifyJ, escString]⟩
      obtain ⟨t, ht⟩ := hheadchar
      rw [ht, pValue_brackets, ← ht]
      rw [show stringifyItems (l.map J.str) ++ [']'] =
          stringifyItems (l.map J.str) ++ ']' :: [] from rfl]
      rw [pItems_strings l d [] (by simp [hl])]
      rfl

/-! ## Lemmas: decoding the cookie that `recordApproval` builds -/

theorem strData_append (a b : String) : (a ++ b).data = a.data ++ b.data := rfl

theorem strMk_data (s : String) : String.mk s.data = s := rfl

theorem mem_hexOfBytes {c : Char} :
    ∀ {bs : List Nat}, (∀ b ∈ bs, b < 256) → c ∈ hexOfBytes bs →
      ∃ n : Fin 16, c = hexDigitChar n.val := by
  intro bs
  induction bs with
  | nil => intro _ hc; simp [hexOfBytes] at hc
  | cons b bs ih =>
      intro hb hc
      have hblt : b < 256 := hb _ (by simp)
      simp only [hexOfBytes, List.map_cons, List.flatten_cons, byteHex, List.cons_append,
        List.nil_append, List.mem_cons] at hc
      rcases hc with rfl | rfl | hc
      · exact ⟨⟨b / 16, by omega⟩, rfl⟩
      · exact ⟨⟨b % 16, by omega⟩, rfl⟩
      · exact ih (fun x hx => hb x (by simp [hx])) (by simpa [hexOfBytes] using hc)

theorem hexDigitChar_good : ∀ n : Fin 16,
    hexDigitChar n.val ≠ ';' ∧ hexDigitChar n.val ≠ '.' ∧ jsWs (hexDigitChar n.val) = false := by
  decide

theorem b64Char_good : ∀ n : Fin 64,
    b64Char n.val ≠ ';' ∧ b64Char n.val ≠ '.' ∧ jsWs (b64Char n.val) = false := by
  decide

theorem splitOnChar_not_mem {sep : Char} {cs : List Char} (h : sep ∉ cs) :
    splitOnChar sep cs = [cs] := by
  induction cs with
  | nil => rfl
  | cons c r ih =>
      have hc : ¬ c = sep := fun hcs => h (by simp [hcs])
      have hr : sep ∉ r := fun hrs => h (by simp [hrs])
      simp only [splitOnChar, if_neg hc, ih hr]

theorem splitOnChar_append {sep : Char} {a : List Char} (b : List Char) (h : sep ∉ a) :
    splitOnChar sep (a ++ sep :: b) = a :: splitOnChar sep b := by
  induction a with
  | nil => simp [splitOnChar]
  | cons c r ih =>
      have hc : ¬ c = sep := fun hcs => h (by simp [hcs])
      have hr : sep ∉ r := fun hrs => h (by simp [hrs])
      rw [show (c :: r) ++ sep :: b = c :: (r ++ sep :: b) from rfl]
      rw [splitOnChar.eq_2, if_neg hc, ih hr]

theorem dropWhile_all_false {p : Char → Bool} :
    ∀ {l : List Char}, (∀ c ∈ l, p c = false) → l.dropWhile p = l := by
  intro l h
  cases l with
  | nil => rfl
  | cons c r => simp [List.dropWhile_cons, h c (by simp)]

theorem trimChars_of_all {cs : List Char} (h : ∀ c ∈ cs, jsWs c = false) :
    trimChars cs = cs := by
  unfold trimChars
  rw [dropWhile_all_false h, dropWhile_all_false (fun c hc => h c (by simpa using hc)),
    List.reverse_reverse]

theorem startsWithL_append (p r : List Char) : startsWithL (p ++ r) p = true := by
  induction p with
  | nil => simp [startsWithL]
  | cons c q ih => simp [startsWithL, ih]

/-- All characters of the value part of a built cookie are benign: no
separator, no dot outside the one written, no whitespace. -/
theorem built_cookie_chars {secret payload : String} {bs : List Nat}
    (hsig : ∀ b ∈ hmacSha256 (utf8Encode secret) (utf8Encode payload), b < 256)
    (hb64 : ∀ b ∈ bs, b < 256) :
    (∀ c ∈ (signData (utf8Encode secret) payload).data,
        c ≠ ';' ∧ c ≠ '.' ∧ jsWs c = false) ∧
    (∀ c ∈ btoaGroups bs, c ≠ ';' ∧ c ≠ '.' ∧ jsWs c = false) := by
  constructor
  · intro c hc
    have : c ∈ hexOfBytes (hmacSha256 (utf8Encode secret) (utf8Encode payload)) := hc
    obtain ⟨n, rfl⟩ := mem_hexOfBytes hsig this
    exact hexDigitChar_good n
  · intro c hc
    rcases mem_btoaGroups hb64 hc with ⟨n, rfl⟩ | rfl
    · exact b64Char_good n
    · refine ⟨by decide, by decide, by decide⟩

/-- The cookie name characters are benign and the name has length 20. -/
theorem cookie_name_chars :
    (∀ c ∈ COOKIE_NAME.data, c ≠ ';' ∧ c ≠ '.' ∧ jsWs c = false) ∧
      COOKIE_NAME.data.length = 20 := by
  constructor
  · intro c hc
    fin_cases hc <;> exact ⟨by decide, by decide, by decide⟩
  · rfl

theorem all_isJStr (l : List String) : (l.map J.str).all isJStr = true := by
  rw [List.all_eq_true]
  intro x hx
  simp only [List.mem_map] at hx
  obtain ⟨y, _, rfl⟩ := hx
  rfl

theorem map_jStrVal (l : List String) : (l.map J.str).map jStrVal = l := by
  rw [List.map_map]
  have : (jStrVal ∘ J.str) = id := funext (fun x => rfl)
  rw [this, List.map_id]

theorem except_ok_bind {α β : Type} (a : α) (f : α → Except String β) :
    (Except.ok a >>= f) = f a := rfl

set_option maxHeartbeats 2000000 in
/-- Decoding the cookie that `recordApproval` built recovers exactly the
approved-client list that was signed into it. -/
theorem getApproved_built_cookie (secret : String) (l : List String) (b64 : String)
    (hsec : secret ≠ "")
    (hb : btoa (String.mk (stringifyJ (J.arr (l.map J.str)))) = .ok b64) :
    getApprovedClientsFromCookie
      (some (COOKIE_NAME ++ "=" ++
        signData (utf8Encode secret) (String.mk (stringifyJ (J.arr (l.map J.str)))) ++
        "." ++ b64)) secret = .ok (some l) := by
  have hsigb : ∀ b ∈ hmacSha256 (utf8Encode secret)
      (utf8Encode (String.mk (stringifyJ (J.arr (l.map J.str))))), b < 256 :=
    fun b hbm => hmacSha256_mem_lt hbm
  -- unpack the successful btoa
  have hball : (String.mk (stringifyJ (J.arr (l.map J.str)))).data.all
      (fun c => c.toNat < 256) = true := by
    by_contra hno
    rw [btoa, if_neg (by exact fun hh => hno hh)] at hb
    exact absurd hb (by simp)
  have hb64eq : b64 = String.mk (btoaGroups
      ((String.mk (stringifyJ (J.arr (l.map J.str)))).data.map Char.toNat)) := by
    rw [btoa, if_pos hball] at hb
    injection hb with h2
    exact h2.symm
  have hb64b : ∀ b ∈ (String.mk (stringifyJ (J.arr (l.map J.str)))).data.map Char.toNat,
      b < 256 := by
    intro b hbm
    simp only [List.mem_map] at hbm
    obtain ⟨c, hc, rfl⟩ := hbm
    simpa using List.all_eq_true.mp hball c hc
  obtain ⟨hsigch, hb64ch⟩ := built_cookie_chars hsigb hb64b
  have hb64chars : ∀ c ∈ b64.data, c ≠ ';' ∧ c ≠ '.' ∧ jsWs c = false := by
    intro c hc
    rw [hb64eq] at hc
    exact hb64ch c hc
  -- decompose the header character list
  have hdata : (COOKIE_NAME ++ "=" ++
      signData (utf8Encode secret) (String.mk (stringifyJ (J.arr (l.map J.str)))) ++
      "." ++ b64).data =
      (COOKIE_NAME.data ++ ['=']) ++
        ((signData (utf8Encode secret)
          (String.mk (stringifyJ (J.arr (l.map J.str))))).data ++ '.' :: b64.data) := by
    simp only [strData_append]
    simp
  have hne : (COOKIE_NAME ++ "=" ++
      signData (utf8Encode secret) (String.mk (stringifyJ (J.arr (l.map J.str)))) ++
      "." ++ b64) ≠ "" := by
    intro he
    have := congrArg String.data he
    rw [hdata] at this
    simp at this
  have hgood : ∀ c ∈ (COOKIE_NAME ++ "=" ++
      signData (utf8Encode secret) (String.mk (stringifyJ (J.arr (l.map J.str)))) ++
      "." ++ b64).data, c ≠ ';' ∧ jsWs c = false := by
    intro c hc
    rw [hdata] at hc
    simp only [List.mem_append, List.mem_cons, List.mem_singleton,
      List.not_mem_nil, or_false] at hc
    rcases hc with (hc | rfl) | (hc | (rfl | hc))
    · exact ⟨(cookie_name_chars.1 c hc).1, (cookie_name_chars.1 c hc).2.2⟩
    · exact ⟨by decide, by decide⟩
    · exact ⟨(hsigch c hc).1, (hsigch c hc).2.2⟩
    · exact ⟨by decide, by decide⟩
    · exact ⟨(hb64chars c hc).1, (hb64chars c hc).2.2⟩
  have hnosemi : ';' ∉ (COOKIE_NAME.data ++ ['=']) ++
      ((signData (utf8Encode secret)
        (String.mk (stringifyJ (J.arr (l.map J.str))))).data ++ '.' :: b64.data) := by
    intro hmem
    exact (hgood ';' (by rw [hdata]; exact hmem)).1 rfl
  have hws : ∀ c ∈ (COOKIE_NAME.data ++ ['=']) ++
      ((signData (utf8Encode secret)
        (String.mk (stringifyJ (J.arr (l.map J.str))))).data ++ '.' :: b64.data),
      jsWs c = false := by
    intro c hc
    exact (hgood c (by rw [hdata]; exact hc)).2
  rw [getApprovedClientsFromCookie]
  rw [if_neg hne]
  simp only []
  rw [hdata, splitOnChar_not_mem hnosemi, List.map_cons, List.map_nil,
    trimChars_of_all hws]
  rw [List.find?_cons_of_pos _ (by
    rw [List.append_assoc]
    exact startsWithL_append (COOKIE_NAME.data ++ ['=']) _)]
  simp only []
  have hdrop : ((COOKIE_NAME.data ++ ['=']) ++
      ((signData (utf8Encode secret)
        (String.mk (stringifyJ (J.arr (l.map J.str))))).data ++ '.' :: b64.data)).drop
      (COOKIE_NAME.data.length + 1) =
      (signData (utf8Encode secret)
        (String.mk (stringifyJ (J.arr (l.map J.str))))).data ++ '.' :: b64.data := by
    have hlen : COOKIE_NAME.data.length + 1 = (COOKIE_NAME.data ++ ['=']).length := by
      simp
    rw [hlen, List.drop_left]
  rw [hdrop]
  rw [splitOnChar_append _ (fun hmem => ((hsigch _ hmem).2.1 rfl)),
    splitOnChar_not_mem (fun hmem => ((hb64chars _ hmem).2.1 rfl))]
  simp only []
  simp only [strMk_data]
  rw [atob_btoa hb, except_ok_bind]
  have hkey : importKey secret = .ok (utf8Encode secret) := by simp [importKey, hsec]
  rw [hkey, except_ok_bind]
  rw [verifySignature_signData]
  rw [if_neg (not_not_intro rfl)]
  rw [jsonParse_stringify_strings l]
  simp only []
  rw [show ((l.map J.str).all isJStr) = true from all_isJStr l]
  rw [if_pos rfl]
  rw [map_jStrVal]
  rfl

theorem strAppend_assoc (a b c : String) : a ++ b ++ c = a ++ (b ++ c) := by
  apply String.ext
  simp [String.data_append, List.append_assoc]

theorem except_error_bind {α β : Type} (e : String) (f : α → Except String β) :
    ((Except.error e : Except String α) >>= f) = .error e := rfl

theorem except_pure_bind {α β : Type} (a : α) (f : α → Except String β) :
    ((pure a : Except String α) >>= f) = f a := rfl

set_option maxHeartbeats 1000000 in
/-- C3: on every successful approval POST the emitted cookie's signature is
the lowercase-hex HMAC-SHA256 over the UTF-8 bytes of the JSON-serialized
payload (not over the base64 transport encoding), and the `Set-Cookie` header
has the exact shape `name=<hex-signature>.<base64-of-JSON-array>` with
attributes `HttpOnly; Secure; Path=/; SameSite=Lax; Max-Age=31536000`. -/
theorem spec_C3_cookie_signature_over_payload_bytes (request : JsRequest) (secret : String)
    (r : ParsedApprovalResult)
    (hok : parseRedirectApproval request secret = .ok r) :
    ∃ (upd : List J) (b64 : String),
      updatedApprovedClients request.cookieHeader
        (jGet (jGet r.state "oauthReqInfo") "clientId") secret = .ok upd ∧
      btoa (String.mk (stringifyJ (J.arr upd))) = .ok b64 ∧
      r.headers.newCookieValue =
        String.mk (hexOfBytes (hmacSha256 (utf8Encode secret)
          (utf8Encode (String.mk (stringifyJ (J.arr upd)))))) ++ "." ++ b64 ∧
      r.headers.setCookie =
        COOKIE_NAME ++ "=" ++ r.headers.newCookieValue ++
          "; HttpOnly; Secure; Path=/; SameSite=Lax; Max-Age=31536000" := by
  unfold parseRedirectApproval at hok
  by_cases hm : request.method = "POST"
  · rw [if_neg (not_not_intro hm)] at hok
    cases hfs : request.formState with
    | none =>
        rw [hfs] at hok
        simp only [] at hok
        rw [except_error_bind] at hok
        exact Except.noConfusion hok
    | some es =>
        rw [hfs] at hok
        simp only [] at hok
        by_cases he : es = ""
        · rw [if_pos he] at hok
          rw [except_error_bind] at hok
          exact Except.noConfusion hok
        · rw [if_neg he] at hok
          cases hd : decodeState es with
          | error e =>
              rw [hd] at hok
              simp only [] at hok
              rw [except_error_bind] at hok
              exact Except.noConfusion hok
          | ok st =>
              rw [hd] at hok
              simp only [] at hok
              by_cases ht : jTruthy (jGet (jGet st "oauthReqInfo") "clientId") = true
              · rw [if_neg (not_not_intro ht)] at hok
                rw [except_ok_bind] at hok
                simp only [] at hok
                unfold recordApproval at hok
                cases hU : updatedApprovedClients request.cookieHeader
                    (jGet (jGet st "oauthReqInfo") "clientId") secret with
                | error e =>
                    rw [hU] at hok
                    rw [except_error_bind] at hok
                    exact Except.noConfusion hok
                | ok upd =>
                    rw [hU] at hok
                    rw [except_ok_bind] at hok
                    simp only [] at hok
                    by_cases hsec : secret = ""
                    · rw [hsec] at hok
                      rw [show importKey "" = (Except.error
                        "COOKIE_SECRET is not defined. A secret key is required for signing cookies."
                        : Except String (List Nat)) from rfl] at hok
                      rw [except_error_bind] at hok
                      exact Except.noConfusion hok
                    · have hkey : importKey secret = .ok (utf8Encode secret) := by
                        simp [importKey, hsec]
                      rw [hkey] at hok
                      rw [except_ok_bind] at hok
                      cases hB : btoa (String.mk (stringifyJ (J.arr upd))) with
                      | error e =>
                          rw [hB] at hok
                          rw [except_error_bind] at hok
                          exact Except.noConfusion hok
                      | ok b64 =>
                          rw [hB] at hok
                          rw [except_ok_bind] at hok
                          rw [except_pure_bind] at hok
                          have hok' : (Except.ok
                              ({ state := st,
                                 headers :=
                                  { newCookieValue :=
                                      signData (utf8Encode secret)
                                        (String.mk (stringifyJ (J.arr upd))) ++ "." ++ b64,
                                    setCookie := COOKIE_NAME ++ "=" ++
                                      (signData (utf8Encode secret)
                                        (String.mk (stringifyJ (J.arr upd))) ++ "." ++ b64) ++
                                      "; HttpOnly; Secure; Path=/; SameSite=Lax; Max-Age=" ++
                                      toString ONE_YEAR_IN_SECONDS } } :
                                ParsedApprovalResult) :
                              Except String ParsedApprovalResult) = .ok r := hok
                          injection hok' with h
                          subst h
                          refine ⟨upd, b64, hU, hB, rfl, ?_⟩
                          show COOKIE_NAME ++ "=" ++
                              (signData (utf8Encode secret)
                                (String.mk (stringifyJ (J.arr upd))) ++ "." ++ b64) ++
                              "; HttpOnly; Secure; Path=/; SameSite=Lax; Max-Age=" ++
                              toString ONE_YEAR_IN_SECONDS =
                            COOKIE_NAME ++ "=" ++
                              (signData (utf8Encode secret)
                                (String.mk (stringifyJ (J.arr upd))) ++ "." ++ b64) ++
                              "; HttpOnly; Secure; Path=/; SameSite=Lax; Max-Age=31536000"
                          rw [strAppend_assoc]
                          rw [show ("; HttpOnly; Secure; Path=/; SameSite=Lax; Max-Age=" ++
                            toString ONE_YEAR_IN_SECONDS : String) =
                            "; HttpOnly; Secure; Path=/; SameSite=Lax; Max-Age=31536000" from rfl]
              · rw [if_pos ht] at hok
                rw [except_error_bind] at hok
                exact Except.noConfusion hok
  · rw [if_pos hm] at hok
    exact Except.noConfusion hok

/-- A concrete approval POST: no prior cookie, and a form state that is the
base64 encoding of `\x7b"oauthReqInfo":\x7b"clientId":"app1"\x7d\x7d`. -/
def c3req : JsRequest :=
  { method := "POST", cookieHeader := none,
    formState := some "eyJvYXV0aFJlcUluZm8iOnsiY2xpZW50SWQiOiJhcHAxIn19" }

/-- The parsed result of the concrete approval POST (total by construction). -/
def c3result : ParsedApprovalResult :=
  match parseRedirectApproval c3req "s" with
  | .ok r => r
  | .error _ => { state := J.null, headers := { newCookieValue := "", setCookie := "" } }

/-- Witness for C3: the concrete approval POST succeeds and the conclusion
holds for it. -/
theorem spec_C3_cookie_signature_over_payload_bytes_witness :
    parseRedirectApproval c3req "s" = .ok c3result ∧
    (∃ (upd : List J) (b64 : String),
      updatedApprovedClients c3req.cookieHeader
        (jGet (jGet c3result.state "oauthReqInfo") "clientId") "s" = .ok upd ∧
      btoa (String.mk (stringifyJ (J.arr upd))) = .ok b64 ∧
      c3result.headers.newCookieValue =
        String.mk (hexOfBytes (hmacSha256 (utf8Encode "s")
          (utf8Encode (String.mk (stringifyJ (J.arr upd)))))) ++ "." ++ b64 ∧
      c3result.headers.setCookie =
        COOKIE_NAME ++ "=" ++ c3result.headers.newCookieValue ++
          "; HttpOnly; Secure; Path=/; SameSite=Lax; Max-Age=31536000") :=
  ⟨rfl, spec_C3_cookie_signature_over_payload_bytes c3req "s" c3result rfl⟩

/-! ## Deduplication lemmas for the approval union -/

/-- One step of first-occurrence deduplication on strings. -/
def dedupStep (acc : List String) (x : String) : List String :=
  if acc.any (fun y => y == x) then acc else acc ++ [x]

/-- First-occurrence deduplication on strings (the string-level shadow of
`jsSetDedup` on all-string arrays). -/
def strDedup (xs : List String) : List String := xs.foldl dedupStep []

theorem foldl_dedupStep_mem : ∀ (l : List String), ∀ (acc : List String) (x : String),
    x ∈ l.foldl dedupStep acc ↔ x ∈ acc ∨ x ∈ l := by
  intro l
  induction l with
  | nil => intro acc x; simp
  | cons a t ih =>
      intro acc x
      rw [List.foldl_cons, ih]
      unfold dedupStep
      by_cases h : acc.any (fun y => y == a)
      · rw [if_pos h]
        have ha : a ∈ acc := by
          rcases List.any_eq_true.mp h with ⟨y, hy, hyx⟩
          rw [beq_iff_eq] at hyx
          subst hyx
          exact hy
        constructor
        · rintro (hx | hx)
          · exact Or.inl hx
          · exact Or.inr (List.mem_cons_of_mem a hx)
        · rintro (hx | hx)
          · exact Or.inl hx
          · rcases List.mem_cons.mp hx with rfl | hx
            · exact Or.inl ha
            · exact Or.inr hx
      · rw [if_neg h]
        simp only [List.mem_append, List.mem_singleton, List.mem_cons]
        tauto

theorem foldl_dedupStep_nodup : ∀ (l : List String), ∀ (acc : List String),
    acc.Nodup → (l.foldl dedupStep acc).Nodup := by
  intro l
  induction l with
  | nil => intro acc h; exact h
  | cons a t ih =>
      intro acc h
      rw [List.foldl_cons]
      apply ih
      unfold dedupStep
      by_cases hc : acc.any (fun y => y == a)
      · rw [if_pos hc]; exact h
      · rw [if_neg hc]
        have ha : a ∉ acc := by
          intro hmem
          exact hc (List.any_eq_true.mpr ⟨a, hmem, beq_self_eq_true a⟩)
        rw [List.nodup_append]
        refine ⟨h, List.nodup_singleton a, ?_⟩
        intro x hx hxa
        rw [List.mem_singleton] at hxa
        subst hxa
        exact ha hx

theorem foldl_dedupStep_fresh : ∀ (l : List String), ∀ (acc : List String),
    (∀ x ∈ l, x ∉ acc) → l.Nodup → l.foldl dedupStep acc = acc ++ l := by
  intro l
  induction l with
  | nil => intro acc _ _; simp
  | cons a t ih =>
      intro acc h hn
      rw [List.foldl_cons]
      have ha : a ∉ acc := h a (List.mem_cons_self a t)
      have hstep : dedupStep acc a = acc ++ [a] := by
        unfold dedupStep
        rw [if_neg]
        intro hc
        rcases List.any_eq_true.mp hc with ⟨y, hy, hya⟩
        rw [beq_iff_eq] at hya
        subst hya
        exact ha hy
      rw [hstep]
      have h2 : ∀ x ∈ t, x ∉ acc ++ [a] := by
        intro x hx hmem
        rcases List.mem_append.mp hmem with hxa | hxa
        · exact h x (List.mem_cons_of_mem a hx) hxa
        · rw [List.mem_singleton] at hxa
          subst hxa
          exact (List.nodup_cons.mp hn).1 hx
      rw [ih (acc ++ [a]) h2 (List.nodup_cons.mp hn).2]
      simp

theorem strDedup_mem (l : List String) (x : String) : x ∈ strDedup l ↔ x ∈ l := by
  unfold strDedup
  rw [foldl_dedupStep_mem]
  simp

theorem strDedup_nodup (l : List String) : (strDedup l).Nodup :=
  foldl_dedupStep_nodup l [] List.nodup_nil

theorem strDedup_append_mem (l : List String) (x : String) (hx : x ∈ l) (hn : l.Nodup) :
    strDedup (l ++ [x]) = l := by
  unfold strDedup
  rw [List.foldl_append]
  rw [show List.foldl dedupStep [] l = [] ++ l from
    foldl_dedupStep_fresh l [] (by simp) hn]
  rw [List.nil_append, List.foldl_cons, List.foldl_nil]
  unfold dedupStep
  have hc : (l.any fun y => y == x) = true := List.any_eq_true.mpr ⟨x, hx, beq_self_eq_true x⟩
  rw [if_pos hc]

theorem jsSetDedup_map_str : ∀ (l : List String), ∀ (acc : List String),
    (l.map J.str).foldl
      (fun acc x => if acc.any (fun y => sameValueZeroJ y x) then acc else acc ++ [x])
      (acc.map J.str) = (l.foldl dedupStep acc).map J.str := by
  intro l
  induction l with
  | nil => intro acc; rfl
  | cons a t ih =>
      intro acc
      rw [List.map_cons, List.foldl_cons, List.foldl_cons]
      have hany : ((acc.map J.str).any (fun y => sameValueZeroJ y (J.str a))) =
          acc.any (fun y => y == a) := by
        induction acc with
        | nil => rfl
        | cons b bt ihb =>
            simp only [List.map_cons, List.any_cons, ihb]
            rfl
      rw [hany]
      unfold dedupStep
      by_cases h : acc.any (fun y => y == a)
      · rw [if_pos h, if_pos h]
        exact ih acc
      · rw [if_neg h, if_neg h]
        rw [show (acc.map J.str) ++ [J.str a] = (acc ++ [a]).map J.str from by simp]
        exact ih (acc ++ [a])

theorem jsSetDedup_str (l : List String) :
    jsSetDedup (l.map J.str) = (strDedup l).map J.str := by
  unfold jsSetDedup strDedup
  exact jsSetDedup_map_str l []

set_option maxHeartbeats 1000000 in
/-- C4: recording approval for a client id X twice, starting from the same
valid existing cookie, yields the same consent list as recording it once —
the union with X is deduplicated, contains X, contains every id from the
existing list, and re-approving against the freshly built cookie reproduces
the identical headers. -/
theorem spec_C4_approval_idempotent_union (cookieHeader : Option String) (X : String)
    (secret : String) (L0 : List String) (r1 : ApprovalHeaders)
    (hsec : secret ≠ "")
    (h0 : getApprovedClientsFromCookie cookieHeader secret = .ok (some L0))
    (h1 : recordApproval cookieHeader (J.str X) secret = .ok r1) :
    ∃ L1 : List String,
      updatedApprovedClients cookieHeader (J.str X) secret = .ok (L1.map J.str) ∧
      X ∈ L1 ∧
      (∀ a ∈ L0, a ∈ L1) ∧
      L1.Nodup ∧
      recordApproval (some (COOKIE_NAME ++ "=" ++ r1.newCookieValue)) (J.str X) secret =
        .ok r1 := by
  have hEx : existingApprovedClients cookieHeader secret = .ok L0 := by
    unfold existingApprovedClients
    rw [h0, except_ok_bind]
    rfl
  have hUpd : updatedApprovedClients cookieHeader (J.str X) secret =
      .ok ((strDedup (L0 ++ [X])).map J.str) := by
    unfold updatedApprovedClients
    rw [hEx, except_ok_bind]
    rw [show (L0.map J.str) ++ [J.str X] = (L0 ++ [X]).map J.str from by simp]
    rw [show jsSetDedup ((L0 ++ [X]).map J.str) = (strDedup (L0 ++ [X])).map J.str from
      jsSetDedup_str (L0 ++ [X])]
    rfl
  have hkey : importKey secret = .ok (utf8Encode secret) := by simp [importKey, hsec]
  -- invert the first recordApproval to expose the cookie value it built
  unfold recordApproval at h1
  rw [hUpd, except_ok_bind] at h1
  rw [hkey, except_ok_bind] at h1
  cases hB : btoa (String.mk (stringifyJ (J.arr ((strDedup (L0 ++ [X])).map J.str)))) with
  | error e =>
      rw [hB, except_error_bind] at h1
      exact Except.noConfusion h1
  | ok b64 =>
      rw [hB, except_ok_bind] at h1
      simp only [] at h1
      have h1' : (Except.ok
          ({ newCookieValue :=
               signData (utf8Encode secret)
                 (String.mk (stringifyJ (J.arr ((strDedup (L0 ++ [X])).map J.str)))) ++
               "." ++ b64,
             setCookie := COOKIE_NAME ++ "=" ++
               (signData (utf8Encode secret)
                 (String.mk (stringifyJ (J.arr ((strDedup (L0 ++ [X])).map J.str)))) ++
                "." ++ b64) ++
               "; HttpOnly; Secure; Path=/; SameSite=Lax; Max-Age=" ++
               toString ONE_YEAR_IN_SECONDS } : ApprovalHeaders) :
          Except String ApprovalHeaders) = .ok r1 := h1
      injection h1' with h
      subst h
      refine ⟨strDedup (L0 ++ [X]), hUpd, ?_, ?_, strDedup_nodup (L0 ++ [X]), ?_⟩
      · rw [strDedup_mem]
        simp
      · intro a ha
        rw [strDedup_mem]
        exact List.mem_append.mpr (Or.inl ha)
      · -- the second approval, against the cookie just built
        have hX1 : X ∈ strDedup (L0 ++ [X]) := by
          rw [strDedup_mem]
          simp
        have hget2 : getApprovedClientsFromCookie
            (some (COOKIE_NAME ++ "=" ++
              (signData (utf8Encode secret)
                (String.mk (stringifyJ (J.arr ((strDedup (L0 ++ [X])).map J.str)))) ++
               "." ++ b64))) secret = .ok (some (strDedup (L0 ++ [X]))) := by
          rw [show COOKIE_NAME ++ "=" ++
              (signData (utf8Encode secret)
                (String.mk (stringifyJ (J.arr ((strDedup (L0 ++ [X])).map J.str)))) ++
               "." ++ b64) =
              COOKIE_NAME ++ "=" ++
              signData (utf8Encode secret)
                (String.mk (stringifyJ (J.arr ((strDedup (L0 ++ [X])).map J.str)))) ++
               "." ++ b64 from by simp only [strAppend_assoc]]
          exact getApproved_built_cookie secret (strDedup (L0 ++ [X])) b64 hsec hB
        have hEx2 : existingApprovedClients
            (some (COOKIE_NAME ++ "=" ++
              (signData (utf8Encode secret)
                (String.mk (stringifyJ (J.arr ((strDedup (L0 ++ [X])).map J.str)))) ++
               "." ++ b64))) secret = .ok (strDedup (L0 ++ [X])) := by
          unfold existingApprovedClients
          rw [hget2, except_ok_bind]
          rfl
        have hUpd2 : updatedApprovedClients
            (some (COOKIE_NAME ++ "=" ++
              (signData (utf8Encode secret)
                (String.mk (stringifyJ (J.arr ((strDedup (L0 ++ [X])).map J.str)))) ++
               "." ++ b64))) (J.str X) secret =
            .ok ((strDedup (L0 ++ [X])).map J.str) := by
          unfold updatedApprovedClients
          rw [hEx2, except_ok_bind]
          rw [show ((strDedup (L0 ++ [X])).map J.str) ++ [J.str X] =
            (strDedup (L0 ++ [X]) ++ [X]).map J.str from by simp]
          rw [show jsSetDedup ((strDedup (L0 ++ [X]) ++ [X]).map J.str) =
            (strDedup (strDedup (L0 ++ [X]) ++ [X])).map J.str from
            jsSetDedup_str (strDedup (L0 ++ [X]) ++ [X])]
          rw [strDedup_append_mem (strDedup (L0 ++ [X])) X hX1 (strDedup_nodup (L0 ++ [X]))]
          rfl
        unfold recordApproval
        rw [hUpd2, except_ok_bind]
        rw [hkey, except_ok_bind]
        rw [hB, except_ok_bind]
        rfl

/-- A concrete valid consent cookie: the name, the hex HMAC-SHA256 of the
payload `["app0"]` under the secret `"s"`, and the base64 of that payload. -/
def c4cookie : String :=
  "mcp-approved-clients=59e8e159908673c725751709cccb18028f0c3a9d2e72d654fa6daf7bd20690dd.WyJhcHAwIl0="

/-- The headers built by the first concrete re-approval (total by
construction). -/
def c4headers : ApprovalHeaders :=
  match recordApproval (some c4cookie) (J.str "app1") "s" with
  | .ok h => h
  | .error _ => { newCookieValue := "", setCookie := "" }

/-- Witness for C4: the concrete cookie decodes to `["app0"]`, the concrete
approval of `"app1"` succeeds, and the conclusion holds for them. -/
theorem spec_C4_approval_idempotent_union_witness :
    getApprovedClientsFromCookie (some c4cookie) "s" = .ok (some ["app0"]) ∧
    recordApproval (some c4cookie) (J.str "app1") "s" = .ok c4headers ∧
    (∃ L1 : List String,
      updatedApprovedClients (some c4cookie) (J.str "app1") "s" = .ok (L1.map J.str) ∧
      "app1" ∈ L1 ∧
      (∀ a ∈ ["app0"], a ∈ L1) ∧
      L1.Nodup ∧
      recordApproval (some (COOKIE_NAME ++ "=" ++ c4headers.newCookieValue))
        (J.str "app1") "s" = .ok c4headers) :=
  ⟨rfl, rfl,
    spec_C4_approval_idempotent_union (some c4cookie) "app1" "s" ["app0"] c4headers
      (by decide) rfl rfl⟩

/-! ## C5: partial failure in the tree walker -/

set_option maxHeartbeats 1000000 in
/-- C5 (amended): with one workspace holding spaces A and B, where A's
folder-fetch fails and B's fetches all succeed, `getAllLists` succeeds with
`success := true`, keeps A's direct space-level lists (rather than dropping
A to zero lists), returns all of B's lists, and counts both; and only a
failure of the workspace enumeration itself is fatal for the whole call. -/
theorem spec_C5_folder_failure_keeps_direct_lists (env : TreeEnv) (t : Team)
    (A B : CUSpace) (directA directB folderLists : List CUList) (FB : Folder)
    (archived : Option Bool) (eA : String)
    (hw : env.getWorkspaces = .ok [t])
    (hs : env.getSpaces t.id archived = .ok [A, B])
    (hA1 : env.getListsInSpace A.id archived = .ok directA)
    (hA2 : env.getFolders A.id archived = .error eA)
    (hB1 : env.getListsInSpace B.id archived = .ok directB)
    (hB2 : env.getFolders B.id archived = .ok [FB])
    (hB3 : env.getListsInFolder FB.id archived = .ok folderLists) :
    getAllLists env none archived = .ok
      { success := true,
        data := [
          { teamId := t.id, teamName := jsOrStr t.name "Unknown Team",
            spaceId := A.id, spaceName := A.name,
            lists := directA.map (fun l =>
              { list := l, location := .space, folderId := none, folderName := none }) },
          { teamId := t.id, teamName := jsOrStr t.name "Unknown Team",
            spaceId := B.id, spaceName := B.name,
            lists := directB.map (fun l =>
                { list := l, location := .space, folderId := none, folderName := none }) ++
              folderLists.map (fun l =>
                { list := l, location := .folder,
                  folderId := some FB.id, folderName := some FB.name }) } ],
        totalLists := directA.length + (directB.length + folderLists.length) } ∧
    (∀ (env' : TreeEnv) (e : String) (teamId : Option String) (arch : Option Bool),
      env'.getWorkspaces = .error e →
      getAllLists env' teamId arch = .error ("全リスト情報の取得に失敗しました: " ++ e)) := by
  constructor
  · have hrt : resolveTeams env.getWorkspaces none = .ok [t] := by
      unfold resolveTeams
      rw [hw, except_ok_bind]
      rfl
    have hstepA : spaceListsStep env archived A = directA.map (fun l =>
        { list := l, location := .space, folderId := none, folderName := none }) := by
      unfold spaceListsStep
      rw [hA1]
      simp only []
      rw [hA2]
    have hstepB : spaceListsStep env archived B = directB.map (fun l =>
          { list := l, location := .space, folderId := none, folderName := none }) ++
        folderLists.map (fun l =>
          { list := l, location := .folder,
            folderId := some FB.id, folderName := some FB.name }) := by
      unfold spaceListsStep
      rw [hB1]
      simp only []
      rw [hB2]
      simp only [List.foldl_cons, List.foldl_nil]
      rw [hB3]
    have hteam : teamSpaces env archived t = [
        { teamId := t.id, teamName := jsOrStr t.name "Unknown Team",
          spaceId := A.id, spaceName := A.name,
          lists := directA.map (fun l =>
            { list := l, location := .space, folderId := none, folderName := none }) },
        { teamId := t.id, teamName := jsOrStr t.name "Unknown Team",
          spaceId := B.id, spaceName := B.name,
          lists := directB.map (fun l =>
              { list := l, location := .space, folderId := none, folderName := none }) ++
            folderLists.map (fun l =>
              { list := l, location := .folder,
                folderId := some FB.id, folderName := some FB.name }) } ] := by
      unfold teamSpaces
      rw [hs]
      simp only [List.map_cons, List.map_nil]
      rw [hstepA, hstepB]
    unfold getAllLists
    rw [hrt]
    simp only [List.foldl_cons, List.foldl_nil, List.nil_append]
    rw [hteam]
    simp only [List.foldl_cons, List.foldl_nil, List.length_map, List.length_append]
    congr 1
    simp [Nat.add_assoc]
  · intro env' e teamId arch he
    have hrt' : resolveTeams env'.getWorkspaces teamId = .error e := by
      unfold resolveTeams
      rw [he, except_error_bind]
    unfold getAllLists
    rw [hrt']

/-- A concrete tree-walker environment: one workspace, space `A` with one
direct list and a failing folder fetch, space `B` fully healthy with one
direct list and one folder list. -/
def c5env : TreeEnv :=
  { getWorkspaces := .ok [{ id := "t1", name := some "Team One" }],
    getSpaces := fun tid _ =>
      if tid = "t1" then .ok [{ id := "A", name := "Space A" }, { id := "B", name := "Space B" }]
      else .error "no such team",
    getListsInSpace := fun sid _ =>
      if sid = "A" then .ok [{ id := "al1", name := "A direct" }]
      else if sid = "B" then .ok [{ id := "bl1", name := "B direct" }]
      else .error "no such space",
    getFolders := fun sid _ =>
      if sid = "A" then .error "folder fetch failed"
      else if sid = "B" then .ok [{ id := "bf", name := "B folder" }]
      else .error "no such space",
    getListsInFolder := fun fid _ =>
      if fid = "bf" then .ok [{ id := "bfl1", name := "B folder list" }]
      else .error "no such folder" }

/-- Counterexample to C5 as stated: in the claimed scenario (space A's
folder-fetch fails, space B succeeds fully) the walker does NOT return zero
lists for space A — A keeps its direct space-level list. -/
theorem spec_C5_counterexample :
    c5env.getFolders "A" none = .error "folder fetch failed" ∧
    getAllLists c5env none none = .ok
      { success := true,
        data := [
          { teamId := "t1", teamName := "Team One", spaceId := "A", spaceName := "Space A",
            lists := [{ list := { id := "al1", name := "A direct" }, location := .space,
                        folderId := none, folderName := none }] },
          { teamId := "t1", teamName := "Team One", spaceId := "B", spaceName := "Space B",
            lists := [{ list := { id := "bl1", name := "B direct" }, location := .space,
                        folderId := none, folderName := none },
                      { list := { id := "bfl1", name := "B folder list" }, location := .folder,
                        folderId := some "bf", folderName := some "B folder" }] } ],
        totalLists := 3 } ∧
    ¬ (∀ r : AllListsResponse, getAllLists c5env none none = .ok r →
        ∀ s ∈ r.data, s.spaceId = "A" → s.lists = []) := by
  refine ⟨rfl, rfl, ?_⟩
  intro h
  have := h
    { success := true,
      data := [
        { teamId := "t1", teamName := "Team One", spaceId := "A", spaceName := "Space A",
          lists := [{ list := { id := "al1", name := "A direct" }, location := .space,
                      folderId := none, folderName := none }] },
        { teamId := "t1", teamName := "Team One", spaceId := "B", spaceName := "Space B",
          lists := [{ list := { id := "bl1", name := "B direct" }, location := .space,
                      folderId := none, folderName := none },
                    { list := { id := "bfl1", name := "B folder list" }, location := .folder,
                      folderId := some "bf", folderName := some "B folder" }] } ],
      totalLists := 3 } rfl
    { teamId := "t1", teamName := "Team One", spaceId := "A", spaceName := "Space A",
      lists := [{ list := { id := "al1", name := "A direct" }, location := .space,
                  folderId := none, folderName := none }] }
    (List.mem_cons_self _ _) rfl
  exact List.noConfusion this

/-- Witness for the amended C5: the concrete environment realizes every
hypothesis and the conclusion holds for it. -/
theorem spec_C5_folder_failure_keeps_direct_lists_witness :
    c5env.getWorkspaces = .ok [{ id := "t1", name := some "Team One" }] ∧
    (getAllLists c5env none none = .ok
      { success := true,
        data := [
          { teamId := "t1", teamName := jsOrStr (some "Team One") "Unknown Team",
            spaceId := "A", spaceName := "Space A",
            lists := [{ id := "al1", name := "A direct" : CUList }].map (fun l =>
              { list := l, location := .space, folderId := none, folderName := none }) },
          { teamId := "t1", teamName := jsOrStr (some "Team One") "Unknown Team",
            spaceId := "B", spaceName := "Space B",
            lists := [{ id := "bl1", name := "B direct" : CUList }].map (fun l =>
                { list := l, location := .space, folderId := none, folderName := none }) ++
              [{ id := "bfl1", name := "B folder list" : CUList }].map (fun l =>
                { list := l, location := .folder,
                  folderId := some "bf", folderName := some "B folder" }) } ],
        totalLists := 1 + (1 + 1) } ∧
     (∀ (env' : TreeEnv) (e : String) (teamId : Option String) (arch : Option Bool),
       env'.getWorkspaces = .error e →
       getAllLists env' teamId arch = .error ("全リスト情報の取得に失敗しました: " ++ e))) :=
  ⟨rfl,
    spec_C5_folder_failure_keeps_direct_lists c5env
      { id := "t1", name := some "Team One" }
      { id := "A", name := "Space A" } { id := "B", name := "Space B" }
      [{ id := "al1", name := "A direct" }] [{ id := "bl1", name := "B direct" }]
      [{ id := "bfl1", name := "B folder list" }] { id := "bf", name := "B folder" }
      none "folder fetch failed" rfl rfl rfl rfl rfl rfl rfl⟩

/-! ## C6: the local custom-field filter -/

theorem option_some_bind {α β : Type} (a : α) (f : α → Option β) : (some a >>= f) = f a := rfl

theorem option_none_bind {α β : Type} (f : α → Option β) : ((none : Option α) >>= f) = none :=
  rfl

theorem checkEntries_some_true (cfs : List CustomField) : ∀ (m : List (String × J)),
    checkEntries cfs m = some true ↔
      ∀ p ∈ m, ∃ cf, cfs.find? (fun c => c.id = p.1) = some cf ∧
        checkCustomFieldValue cf.value p.2 = some true := by
  intro m
  induction m with
  | nil => simp [checkEntries]
  | cons p rest ih =>
      obtain ⟨fid, ev⟩ := p
      rw [checkEntries]
      cases hf : cfs.find? (fun c => c.id = fid) with
      | none =>
          constructor
          · intro h
            exact Option.noConfusion h (fun h2 => Bool.noConfusion h2)
          · intro h
            rcases h (fid, ev) (List.mem_cons_self _ _) with ⟨cf, hcf, _⟩
            rw [hf] at hcf
            exact Option.noConfusion hcf
      | some cf =>
          simp only []
          cases hc : checkCustomFieldValue cf.value ev with
          | none =>
              simp only []
              constructor
              · intro h
                exact Option.noConfusion h
              · intro h
                rcases h (fid, ev) (List.mem_cons_self _ _) with ⟨cf', hcf', hchk'⟩
                rw [hf] at hcf'
                injection hcf' with hcf'
                subst hcf'
                rw [hc] at hchk'
                exact Option.noConfusion hchk'
          | some b =>
              cases b with
              | false =>
                  simp only []
                  constructor
                  · intro h
                    injection h with h
                    exact Bool.noConfusion h
                  · intro h
                    rcases h (fid, ev) (List.mem_cons_self _ _) with ⟨cf', hcf', hchk'⟩
                    rw [hf] at hcf'
                    injection hcf' with hcf'
                    subst hcf'
                    rw [hc] at hchk'
                    injection hchk' with h2
                    exact Bool.noConfusion h2
              | true =>
                  simp only []
                  rw [ih]
                  constructor
                  · intro h q hq
                    rcases List.mem_cons.mp hq with rfl | hq
                    · exact ⟨cf, hf, hc⟩
                    · exact h q hq
                  · intro h q hq
                    exact h q (List.mem_cons_of_mem _ hq)

theorem taskRetained_some_true {α : Type} (getCF : α → Option (List CustomField))
    (m : List (String × J)) (t : α) :
    taskRetained getCF m t = some true ↔
      ∃ cfs, getCF t = some cfs ∧ checkEntries cfs m = some true := by
  unfold taskRetained
  cases hg : getCF t with
  | none =>
      constructor
      · intro h
        injection h with h
        exact Bool.noConfusion h
      · rintro ⟨cfs, hcfs, _⟩
        exact Option.noConfusion hcfs
  | some cfs =>
      constructor
      · intro h
        exact ⟨cfs, rfl, h⟩
      · rintro ⟨cfs', hcfs', h⟩
        injection hcfs' with hcfs'
        subst hcfs'
        exact h

theorem filterByCustomFields_mem {α : Type} (getCF : α → Option (List CustomField))
    (m : List (String × J)) : ∀ (tasks res : List α),
    filterByCustomFields getCF tasks m = some res →
    ∀ t, t ∈ res ↔ t ∈ tasks ∧ taskRetained getCF m t = some true := by
  intro tasks
  induction tasks with
  | nil =>
      intro res h t
      rw [filterByCustomFields] at h
      injection h with h
      subst h
      simp
  | cons a rest ih =>
      intro res h t
      rw [filterByCustomFields] at h
      cases hk : taskRetained getCF m a with
      | none =>
          rw [hk, option_none_bind] at h
          exact Option.noConfusion h
      | some keep =>
          rw [hk, option_some_bind] at h
          cases hrec : filterByCustomFields getCF rest m with
          | none =>
              rw [hrec, option_none_bind] at h
              exact Option.noConfusion h
          | some out =>
              rw [hrec, option_some_bind] at h
              injection h with h
              subst h
              have hout := ih out hrec
              cases keep with
              | true =>
                  rw [if_pos rfl]
                  constructor
                  · intro ht
                    rcases List.mem_cons.mp ht with rfl | ht
                    · exact ⟨List.mem_cons_self _ _, hk⟩
                    · rcases (hout t).mp ht with ⟨h1, h2⟩
                      exact ⟨List.mem_cons_of_mem _ h1, h2⟩
                  · rintro ⟨ht, hret⟩
                    rcases List.mem_cons.mp ht with rfl | ht
                    · exact List.mem_cons_self _ _
                    · exact List.mem_cons_of_mem _ ((hout t).mpr ⟨ht, hret⟩)
              | false =>
                  rw [if_neg (fun hc => Bool.noConfusion hc)]
                  rw [hout t]
                  constructor
                  · rintro ⟨ht, hret⟩
                    exact ⟨List.mem_cons_of_mem _ ht, hret⟩
                  · rintro ⟨ht, hret⟩
                    rcases List.mem_cons.mp ht with rfl | ht
                    · rw [hk] at hret
                      injection hret with h2
                      exact absurd h2 (fun hc => Bool.noConfusion hc)
                    · exact ⟨ht, hret⟩

set_option maxHeartbeats 1000000 in
/-- C6 (amended): when the local customFields filter completes, a task is
retained iff it is one of the input tasks, carries a `custom_fields`
property, and for every entry of the mapping it has a custom field with
that id whose value passes the entry's check (set membership for an array
expectation, inclusive numeric range for a min/max object, strict equality
otherwise); in particular with `\x7bf1: \x7bmin: 10, max: 20\x7d\x7d` a
task with `f1 = 15` is retained while `f1 = 25` and a task without `f1`
are excluded. -/
theorem spec_C6_custom_field_filter_characterization {α : Type}
    (getCF : α → Option (List CustomField)) (tasks res : List α) (m : List (String × J))
    (hres : filterByCustomFields getCF tasks m = some res) :
    (∀ t, t ∈ res ↔ t ∈ tasks ∧ ∃ cfs, getCF t = some cfs ∧
        ∀ p ∈ m, ∃ cf, cfs.find? (fun c => c.id = p.1) = some cf ∧
          checkCustomFieldValue cf.value p.2 = some true) ∧
    filterByCustomFields (fun (o : Option (List CustomField)) => o)
        [some [⟨"f1", J.num 15⟩], some [⟨"f1", J.num 25⟩], some []]
        [("f1", J.obj [("min", J.num 10), ("max", J.num 20)])] =
      some [some [⟨"f1", J.num 15⟩]] := by
  constructor
  · intro t
    rw [filterByCustomFields_mem getCF m tasks res hres t, taskRetained_some_true]
    constructor
    · rintro ⟨h1, cfs, h2, h3⟩
      exact ⟨h1, cfs, h2, (checkEntries_some_true cfs m).mp h3⟩
    · rintro ⟨h1, cfs, h2, h3⟩
      exact ⟨h1, cfs, h2, (checkEntries_some_true cfs m).mpr h3⟩
  · rfl

/-- Counterexample to C6 as stated: with an empty customFields mapping the
claimed per-entry condition holds vacuously for every task, yet a task
without a `custom_fields` property is still excluded by the filter. -/
theorem spec_C6_counterexample :
    filterByCustomFields (fun (o : Option (List CustomField)) => o)
      [(none : Option (List CustomField))] [] = some [] ∧
    (∀ p ∈ ([] : List (String × J)), ∃ cf : CustomField,
      ([] : List CustomField).find? (fun c => c.id = p.1) = some cf) ∧
    (none : Option (List CustomField)) ∉ ([] : List (Option (List CustomField))) := by
  refine ⟨rfl, ?_, ?_⟩
  · intro p hp
    exact absurd hp (List.not_mem_nil p)
  · simp

/-- Witness for the amended C6 at a concrete instance: the filter completes
on the three sample tasks and the characterization holds for the result. -/
theorem spec_C6_custom_field_filter_characterization_witness :
    filterByCustomFields (fun (o : Option (List CustomField)) => o)
        [some [⟨"f1", J.num 15⟩], some [⟨"f1", J.num 25⟩], some []]
        [("f1", J.obj [("min", J.num 10), ("max", J.num 20)])] =
      some [some [⟨"f1", J.num 15⟩]] ∧
    ((∀ t, t ∈ [some [(⟨"f1", J.num 15⟩ : CustomField)]] ↔
        t ∈ [some [⟨"f1", J.num 15⟩], some [⟨"f1", J.num 25⟩], some []] ∧
        ∃ cfs, (fun (o : Option (List CustomField)) => o) t = some cfs ∧
        ∀ p ∈ [("f1", J.obj [("min", J.num 10), ("max", J.num 20)])],
          ∃ cf, cfs.find? (fun c => c.id = p.1) = some cf ∧
            checkCustomFieldValue cf.value p.2 = some true) ∧
      filterByCustomFields (fun (o : Option (List CustomField)) => o)
          [some [⟨"f1", J.num 15⟩], some [⟨"f1", J.num 25⟩], some []]
          [("f1", J.obj [("min", J.num 10), ("max", J.num 20)])] =
        some [some [⟨"f1", J.num 15⟩]]) :=
  ⟨rfl, spec_C6_custom_field_filter_characterization
    (fun (o : Option (List CustomField)) => o)
    [some [⟨"f1", J.num 15⟩], some [⟨"f1", J.num 25⟩], some []]
    [some [⟨"f1", J.num 15⟩]]
    [("f1", J.obj [("min", J.num 10), ("max", J.num 20)])] rfl⟩

/-! ## C7: the compiled date-range query parameters -/

theorem seg_mem_str (o : Option String) (key k : String) :
    (k ∈ ((match o with
      | some s => if s = "" then ([] : List (String × String)) else [(key, s)]
      | none => []).map Prod.fst)) ↔ (k = key ∧ ∃ s, o = some s ∧ s ≠ "") := by
  cases o with
  | none => simp
  | some s =>
      by_cases h : s = ""
      · simp [h]
      · simp [h]

theorem seg_mem_listS (o : Option (List String)) (f : String → String × String) (key : String)
    (hf : ∀ x, (f x).1 = key) (k : String) :
    (k ∈ ((match o with
      | some l => if l.length > 0 then l.map f else ([] : List (String × String))
      | none => []).map Prod.fst)) ↔ (k = key ∧ ∃ l, o = some l ∧ l ≠ []) := by
  cases o with
  | none => simp
  | some l =>
      cases l with
      | nil => simp
      | cons x t =>
          simp only []
          rw [if_pos (by simp)]
          constructor
          · intro h
            rcases List.mem_map.mp h with ⟨q, hq, rfl⟩
            rcases List.mem_map.mp hq with ⟨y, _, rfl⟩
            exact ⟨(hf y).symm ▸ rfl, x :: t, rfl, by simp⟩
          · rintro ⟨rfl, l', hl', _⟩
            injection hl' with hl'
            subst hl'
            exact List.mem_map.mpr ⟨f x, List.mem_map.mpr ⟨x, List.mem_cons_self x t, rfl⟩, hf x⟩

theorem seg_mem_listI (o : Option (List Int)) (f : Int → String × String) (key : String)
    (hf : ∀ x, (f x).1 = key) (k : String) :
    (k ∈ ((match o with
      | some l => if l.length > 0 then l.map f else ([] : List (String × String))
      | none => []).map Prod.fst)) ↔ (k = key ∧ ∃ l, o = some l ∧ l ≠ []) := by
  cases o with
  | none => simp
  | some l =>
      cases l with
      | nil => simp
      | cons x t =>
          simp only []
          rw [if_pos (by simp)]
          constructor
          · intro h
            rcases List.mem_map.mp h with ⟨q, hq, rfl⟩
            rcases List.mem_map.mp hq with ⟨y, _, rfl⟩
            exact ⟨(hf y).symm ▸ rfl, x :: t, rfl, by simp⟩
          · rintro ⟨rfl, l', hl', _⟩
            injection hl' with hl'
            subst hl'
            exact List.mem_map.mpr ⟨f x, List.mem_map.mpr ⟨x, List.mem_cons_self x t, rfl⟩, hf x⟩

theorem seg_mem_int (o : Option Int) (key k : String) :
    (k ∈ ((match o with
      | some v => if v = 0 then ([] : List (String × String)) else [(key, toString v)]
      | none => []).map Prod.fst)) ↔ (k = key ∧ ∃ v, o = some v ∧ v ≠ 0) := by
  cases o with
  | none => simp
  | some v =>
      by_cases h : v = 0
      · simp [h]
      · simp [h]

theorem seg_mem_bool (o : Option Bool) (key k : String) :
    (k ∈ ((match o with
      | some b => [(key, boolStr b)]
      | none => ([] : List (String × String))).map Prod.fst)) ↔
      (k = key ∧ ∃ b, o = some b) := by
  cases o with
  | none => simp
  | some b => simp

set_option maxHeartbeats 2000000 in
/-- Which keys the compiled query of `setSearchParameters` contains, as a
function of the supplied filters. -/
theorem mem_fst_setSearchParameters (filters : AdvancedSearchFilters) (k : String) :
    k ∈ (setSearchParameters filters).map Prod.fst ↔
      ((k = "search" ∧ ∃ s, filters.searchTerm = some s ∧ s ≠ "") ∨
       (k = "limit" ∨ k = "page") ∨
       (k = "statuses[]" ∧ ∃ l, filters.statuses = some l ∧ l ≠ []) ∨
       (k = "priorities[]" ∧ ∃ l, filters.priorities = some l ∧ l ≠ []) ∨
       (k = "assignees[]" ∧ ∃ l, filters.assigneeIds = some l ∧ l ≠ []) ∨
       (k = "creators[]" ∧ ∃ l, filters.creatorIds = some l ∧ l ≠ []) ∨
       (k = "tags[]" ∧ ∃ l, filters.tags = some l ∧ l ≠ []) ∨
       (k = "parent" ∧ ∃ s, filters.parentTaskId = some s ∧ s ≠ "") ∨
       (k = "due_date_gt" ∧ ∃ v, filters.dueDateFrom = some v ∧ v ≠ 0) ∨
       (k = "due_date_lt" ∧ ∃ v, filters.dueDateTo = some v ∧ v ≠ 0) ∨
       (k = "start_date_gt" ∧ ∃ v, filters.startDateFrom = some v ∧ v ≠ 0) ∨
       (k = "start_date_lt" ∧ ∃ v, filters.startDateTo = some v ∧ v ≠ 0) ∨
       (k = "date_created_gt" ∧ ∃ v, filters.createdDateFrom = some v ∧ v ≠ 0) ∨
       (k = "date_created_lt" ∧ ∃ v, filters.createdDateTo = some v ∧ v ≠ 0) ∨
       (k = "date_updated_gt" ∧ ∃ v, filters.updatedDateFrom = some v ∧ v ≠ 0) ∨
       (k = "date_updated_lt" ∧ ∃ v, filters.updatedDateTo = some v ∧ v ≠ 0) ∨
       (k = "subtasks" ∧ ∃ b, filters.includeSubtasks = some b) ∨
       (k = "include_archived" ∧ ∃ b, filters.includeArchived = some b) ∨
       (k = "include_closed" ∧ ∃ b, filters.includeClosed = some b)) := by
  unfold setSearchParameters
  simp only [List.map_append, List.mem_append]
  rw [seg_mem_str filters.searchTerm "search" k,
    seg_mem_listS filters.statuses (fun s => ("statuses[]", s)) "statuses[]" (fun x => rfl) k,
    seg_mem_listI filters.priorities (fun p => ("priorities[]", toString p)) "priorities[]"
      (fun x => rfl) k,
    seg_mem_listS filters.assigneeIds (fun a => ("assignees[]", a)) "assignees[]"
      (fun x => rfl) k,
    seg_mem_listS filters.creatorIds (fun c => ("creators[]", c)) "creators[]"
      (fun x => rfl) k,
    seg_mem_listS filters.tags (fun t => ("tags[]", t)) "tags[]" (fun x => rfl) k,
    seg_mem_str filters.parentTaskId "parent" k,
    seg_mem_int filters.dueDateFrom "due_date_gt" k,
    seg_mem_int filters.dueDateTo "due_date_lt" k,
    seg_mem_int filters.startDateFrom "start_date_gt" k,
    seg_mem_int filters.startDateTo "start_date_lt" k,
    seg_mem_int filters.createdDateFrom "date_created_gt" k,
    seg_mem_int filters.createdDateTo "date_created_lt" k,
    seg_mem_int filters.updatedDateFrom "date_updated_gt" k,
    seg_mem_int filters.updatedDateTo "date_updated_lt" k,
    seg_mem_bool filters.includeSubtasks "subtasks" k,
    seg_mem_bool filters.includeArchived "include_archived" k,
    seg_mem_bool filters.includeClosed "include_closed" k]
  simp only [List.map_cons, List.map_nil, List.mem_cons, List.not_mem_nil, or_false]
  simp only [or_assoc]

set_option maxHeartbeats 1000000 in
/-- C7 (amended): each of the eight date-range bounds compiles independently
into its remote query parameter, but with a truthiness guard: the parameter
is present iff the bound is supplied AND nonzero — a supplied bound of 0 is
silently dropped, and a missing from/to merely omits that one key. -/
theorem spec_C7_date_bounds_truthy_guard (filters : AdvancedSearchFilters) :
    (("due_date_gt" ∈ (setSearchParameters filters).map Prod.fst) ↔
      ∃ v, filters.dueDateFrom = some v ∧ v ≠ 0) ∧
    (("due_date_lt" ∈ (setSearchParameters filters).map Prod.fst) ↔
      ∃ v, filters.dueDateTo = some v ∧ v ≠ 0) ∧
    (("start_date_gt" ∈ (setSearchParameters filters).map Prod.fst) ↔
      ∃ v, filters.startDateFrom = some v ∧ v ≠ 0) ∧
    (("start_date_lt" ∈ (setSearchParameters filters).map Prod.fst) ↔
      ∃ v, filters.startDateTo = some v ∧ v ≠ 0) ∧
    (("date_created_gt" ∈ (setSearchParameters filters).map Prod.fst) ↔
      ∃ v, filters.createdDateFrom = some v ∧ v ≠ 0) ∧
    (("date_created_lt" ∈ (setSearchParameters filters).map Prod.fst) ↔
      ∃ v, filters.createdDateTo = some v ∧ v ≠ 0) ∧
    (("date_updated_gt" ∈ (setSearchParameters filters).map Prod.fst) ↔
      ∃ v, filters.updatedDateFrom = some v ∧ v ≠ 0) ∧
    (("date_updated_lt" ∈ (setSearchParameters filters).map Prod.fst) ↔
      ∃ v, filters.updatedDateTo = some v ∧ v ≠ 0) := by
  refine ⟨?_, ?_, ?_, ?_, ?_, ?_, ?_, ?_⟩ <;>
    rw [mem_fst_setSearchParameters] <;> simp

/-- Counterexample to C7 as stated: the due-date lower bound 0 is supplied,
yet `due_date_gt` is absent from the compiled query parameters. -/
theorem spec_C7_counterexample :
    ({ emptyFilters with dueDateFrom := some 0 } : AdvancedSearchFilters).dueDateFrom =
      some 0 ∧
    "due_date_gt" ∉
      (setSearchParameters { emptyFilters with dueDateFrom := some 0 }).map Prod.fst := by
  exact ⟨rfl, by decide⟩

/-! ## C8: the hasMore pagination heuristic -/

set_option maxHeartbeats 1000000 in
/-- C8 (amended): for `getMyTasks` and `searchTasks` the returned
`hasMore` is true iff the merged list's length equals the requested limit
and `nextPage` is the requested page plus one; for `searchTasksAdvanced`
the same holds with the EFFECTIVE limit `limit || 15` and page `page || 0`
(so a requested limit of 0 is compared as 15). -/
theorem spec_C8_pagination_heuristic :
    (∀ (env : SearchEnv) (teamId : Option String) (limit page : Int) (r : MyTasksResult),
      getMyTasks env teamId limit page = .ok r →
      (r.pagination.hasMore = true ↔ (r.tasks.length : Int) = limit) ∧
      r.pagination.nextPage = page + 1) ∧
    (∀ (env : SearchEnv) (searchTerm : String) (teamId : Option String) (limit page : Int)
      (r : SearchTasksResult),
      searchTasks env searchTerm teamId limit page = .ok r →
      (r.pagination.hasMore = true ↔ (r.tasks.length : Int) = limit) ∧
      r.pagination.nextPage = page + 1) ∧
    (∀ (env : SearchEnv) (filters : AdvancedSearchFilters) (r : AdvSearchResult),
      searchTasksAdvanced env filters = .ok r →
      (r.pagination.hasMore = true ↔ (r.tasks.length : Int) = jsOrInt filters.limit 15) ∧
      r.pagination.nextPage = jsOrInt filters.page 0 + 1) := by
  refine ⟨?_, ?_, ?_⟩
  · intro env teamId limit page r h
    unfold getMyTasks at h
    cases hE : (do
        let userId ← env.getUserInfo
        let teams ← resolveTeams env.getWorkspaces teamId
        pure (userId, teams) : Except String (String × List Team)) with
    | error e =>
        rw [hE] at h
        exact Except.noConfusion h
    | ok p =>
        obtain ⟨userId, teams⟩ := p
        rw [hE] at h
        simp only [] at h
        injection h with h2
        subst h2
        exact ⟨beq_iff_eq, rfl⟩
  · intro env searchTerm teamId limit page r h
    unfold searchTasks at h
    cases hE : resolveTeams env.getWorkspaces teamId with
    | error e =>
        rw [hE] at h
        exact Except.noConfusion h
    | ok teams =>
        rw [hE] at h
        simp only [] at h
        injection h with h2
        subst h2
        exact ⟨beq_iff_eq, rfl⟩
  · intro env filters r h
    unfold searchTasksAdvanced at h
    cases hE : (do
        let teams ← resolveTeams env.getWorkspaces filters.teamId
        let searchResults := mergeTeamTasks env teams (fun _ => setSearchParameters filters)
        let filteredResults ←
          (match filters.customFields with
           | some m =>
               match filterByCustomFields (fun (_ : TaskWithTeam) => none) searchResults m with
               | some r => .ok r
               | none => .error "TypeError"
           | none => .ok searchResults : Except String (List TaskWithTeam))
        pure filteredResults : Except String (List TaskWithTeam)) with
    | error e =>
        rw [hE] at h
        exact Except.noConfusion h
    | ok filteredResults =>
        rw [hE] at h
        simp only [] at h
        injection h with h2
        subst h2
        exact ⟨beq_iff_eq, rfl⟩

/-- A search environment with no visible workspaces (every aggregation
merges to the empty list). -/
def c8env : SearchEnv :=
  { getUserInfo := .ok "u", getWorkspaces := .ok [],
    fetchTeamTasks := fun _ _ => .ok (some []) }

/-- Counterexample to C8 as stated: requesting `limit = 0` in the advanced
search returns 0 tasks — equal to the REQUESTED limit — yet `hasMore` is
false, because the comparison uses the effective limit `0 || 15 = 15`. -/
theorem spec_C8_counterexample :
    searchTasksAdvanced c8env { emptyFilters with limit := some 0 } = .ok
      { success := true, tasks := [], totalTasks := 0,
        pagination := { limit := 15, page := 0, hasMore := false, nextPage := 1 } } ∧
    ({ emptyFilters with limit := some 0 } : AdvancedSearchFilters).limit = some 0 ∧
    ¬ (({ success := true, tasks := [], totalTasks := 0,
          pagination := { limit := 15, page := 0, hasMore := false, nextPage := 1 } }
            : AdvSearchResult).pagination.hasMore = true ↔
        ((({ success := true, tasks := [], totalTasks := 0,
             pagination := { limit := 15, page := 0, hasMore := false, nextPage := 1 } }
              : AdvSearchResult).tasks.length : Int) = 0)) := by
  refine ⟨rfl, rfl, ?_⟩
  intro hiff
  exact Bool.noConfusion (hiff.mpr rfl)

/-- The `getMyTasks` result of the empty environment. -/
def c8my : MyTasksResult :=
  { success := true, tasks := [], totalTasks := 0, userId := "u",
    pagination := { limit := 5, page := 2, hasMore := false, nextPage := 3 } }

/-- The `searchTasks` result of the empty environment. -/
def c8search : SearchTasksResult :=
  { success := true, searchTerm := "q", tasks := [], totalTasks := 0,
    pagination := { limit := 7, page := 1, hasMore := false, nextPage := 2 } }

/-- The `searchTasksAdvanced` result of the empty environment. -/
def c8adv : AdvSearchResult :=
  { success := true, tasks := [], totalTasks := 0,
    pagination := { limit := 15, page := 0, hasMore := false, nextPage := 1 } }

/-- Witness for the amended C8 at concrete inputs. -/
theorem spec_C8_pagination_heuristic_witness :
    ((c8my.pagination.hasMore = true ↔ (c8my.tasks.length : Int) = 5) ∧
      c8my.pagination.nextPage = 2 + 1) ∧
    ((c8search.pagination.hasMore = true ↔ (c8search.tasks.length : Int) = 7) ∧
      c8search.pagination.nextPage = 1 + 1) ∧
    ((c8adv.pagination.hasMore = true ↔ (c8adv.tasks.length : Int) = jsOrInt none 15) ∧
      c8adv.pagination.nextPage = jsOrInt none 0 + 1) :=
  ⟨spec_C8_pagination_heuristic.1 c8env none 5 2 c8my rfl,
   spec_C8_pagination_heuristic.2.1 c8env "q" none 7 1 c8search rfl,
   spec_C8_pagination_heuristic.2.2 c8env emptyFilters c8adv rfl⟩

/-! ## C9: when the readable timestamps are null -/

/-- The numeric reading of a raw timestamp used by `formatTimestamp`
(`parseInt` on strings, identity on numbers, `NaN` otherwise). -/
def tsNumericValue : TsVal → Option Int
  | .str s => parseIntJS s
  | .num n => some n
  | _ => none

/-- The amended nullability condition for a readable date: the raw value is
falsy (null, absent, `NaN`, 0 or the empty string), or is the literal string
`"0"`, or does not parse as a number, or parses outside the ECMAScript
`Date` range of ±8 640 000 000 000 000 ms. -/
def c9NullCond (raw : TsVal) : Prop :=
  jsFalsyTs raw = true ∨ raw = TsVal.str "0" ∨
  tsNumericValue raw = none ∨
  (∃ m, tsNumericValue raw = some m ∧ (m < -DATE_MAX ∨ DATE_MAX < m))

theorem readableOf_none_iff (raw : TsVal) :
    readableOf raw = none ↔ c9NullCond raw := by
  cases raw with
  | null => simp [readableOf, c9NullCond, jsFalsyTs]
  | undef => simp [readableOf, c9NullCond, jsFalsyTs]
  | nan => simp [readableOf, c9NullCond, jsFalsyTs]
  | num n =>
      by_cases hz : n = 0
      · subst hz
        simp [readableOf, c9NullCond, jsFalsyTs]
      · by_cases hr : n < -DATE_MAX ∨ DATE_MAX < n
        · simp [readableOf, c9NullCond, jsFalsyTs, formatTimestamp, tsNumericValue, hz, hr]
        · simp [readableOf, c9NullCond, jsFalsyTs, formatTimestamp, tsNumericValue, hz, hr]
  | str s =>
      by_cases he : s = ""
      · subst he
        simp [readableOf, c9NullCond, jsFalsyTs]
      · by_cases h0 : s = "0"
        · subst h0
          simp [readableOf, c9NullCond, jsFalsyTs, formatTimestamp]
        · cases hp : parseIntJS s with
          | none =>
              simp [readableOf, c9NullCond, jsFalsyTs, formatTimestamp, tsNumericValue,
                he, h0, hp]
          | some m =>
              by_cases hr : m < -DATE_MAX ∨ DATE_MAX < m
              · simp [readableOf, c9NullCond, jsFalsyTs, formatTimestamp, tsNumericValue,
                  he, h0, hp, hr]
              · simp [readableOf, c9NullCond, jsFalsyTs, formatTimestamp, tsNumericValue,
                  he, h0, hp, hr]

/-- C9 (amended): a readable date field of a formatted task is null iff the
raw timestamp is falsy (null/absent/`NaN`/0/empty), is the string `"0"`,
does not parse as a number, or parses outside the ECMAScript `Date` range;
the formatter is a total function (it never throws). -/
theorem spec_C9_readable_null_characterization (task : RawTask) :
    ((formatTaskDates task).due_date_readable = none ↔ c9NullCond task.due_date) ∧
    ((formatTaskDates task).start_date_readable = none ↔ c9NullCond task.start_date) ∧
    ((formatTaskDates task).date_created_readable = none ↔ c9NullCond task.date_created) ∧
    ((formatTaskDates task).date_updated_readable = none ↔ c9NullCond task.date_updated) :=
  ⟨readableOf_none_iff task.due_date, readableOf_none_iff task.start_date,
   readableOf_none_iff task.date_created, readableOf_none_iff task.date_updated⟩

/-- A concrete raw task whose due date is the parsable number
8 640 000 000 000 001, one past the ECMAScript `Date` range. -/
def c9task : RawTask :=
  { id := "t1", name := "task", description := none, statusStatus := none,
    assignees := none, priorityPriority := none, priorityColor := none,
    due_date := .num 8640000000000001, start_date := .null, date_created := .null,
    date_updated := .null, date_done := .null, list := none, folder := none,
    space := none, tags := none, url := none, time_estimate := none, time_spent := none }

/-- Counterexample to C9 as stated: the due date 8 640 000 000 000 001 is
neither null/absent nor zero and parses as a number, yet its readable form
is null (the value lies outside the `Date` range). -/
theorem spec_C9_counterexample :
    (formatTaskDates c9task).due_date_readable = none ∧
    jsFalsyTs c9task.due_date = false ∧
    c9task.due_date ≠ TsVal.str "0" ∧
    tsNumericValue c9task.due_date = some 8640000000000001 := by
  refine ⟨rfl, rfl, ?_, rfl⟩
  intro h
  exact TsVal.noConfusion h

/-! ## C10: the empty customFields mapping is not a no-op -/

theorem filterByCustomFields_empty {α : Type} (getCF : α → Option (List CustomField)) :
    ∀ tasks : List α, filterByCustomFields getCF tasks [] =
      some (tasks.filter (fun t => (getCF t).isSome)) := by
  intro tasks
  induction tasks with
  | nil => rfl
  | cons a rest ih =>
      rw [filterByCustomFields]
      cases hg : getCF a with
      | none =>
          rw [show taskRetained getCF [] a = some false from by
            unfold taskRetained
            rw [hg]]
          rw [option_some_bind, ih, option_some_bind]
          simp [hg, List.filter_cons]
      | some cfs =>
          rw [show taskRetained getCF [] a = some true from by
            unfold taskRetained
            rw [hg]
            rfl]
          rw [option_some_bind, ih, option_some_bind]
          simp [hg, List.filter_cons]

/-- A raw task for the advanced-search pipeline. -/
def c10raw : RawTask :=
  { id := "t1", name := "task", description := none, statusStatus := none,
    assignees := none, priorityPriority := none, priorityColor := none,
    due_date := .null, start_date := .null, date_created := .null,
    date_updated := .null, date_done := .null, list := none, folder := none,
    space := none, tags := none, url := none, time_estimate := none, time_spent := none }

/-- A search environment with one workspace and one task. -/
def c10env : SearchEnv :=
  { getUserInfo := .ok "u",
    getWorkspaces := .ok [{ id := "t1", name := some "T" }],
    fetchTeamTasks := fun _ _ => .ok (some [c10raw]) }

/-- C10: the local post-filter with an empty customFields mapping retains
exactly the tasks whose `custom_fields` property is present, and in the
advanced-search pipeline supplying `customFields: \x7b\x7d` is observably
different from omitting it: the merged tasks (projected by
`formatTaskDates`, which carries no `custom_fields`) are all dropped. -/
theorem spec_C10_empty_mapping_not_noop :
    (∀ {α : Type} (getCF : α → Option (List CustomField)) (tasks : List α),
      filterByCustomFields getCF tasks [] =
        some (tasks.filter (fun t => (getCF t).isSome))) ∧
    searchTasksAdvanced c10env { emptyFilters with customFields := some [] } = .ok
      { success := true, tasks := [], totalTasks := 0,
        pagination := { limit := 15, page := 0, hasMore := false, nextPage := 1 } } ∧
    searchTasksAdvanced c10env emptyFilters = .ok
      { success := true,
        tasks := [{ task := formatTaskDates c10raw, teamId := "t1", teamName := "T" }],
        totalTasks := 1,
        pagination := { limit := 15, page := 0, hasMore := false, nextPage := 1 } } :=
  ⟨fun getCF tasks => filterByCustomFields_empty getCF tasks, rfl, rfl⟩

end ClickUpMCP
